import Mathlib

/-!
# InvestorLens — verification of the retrieval-and-ranking core

Shallow embedding of the InvestorLens search pipeline
(`backend/search/persona_configs.py`, `persona_ranker.py`,
`graph_traversal.py`, `query_parser.py`, `search_pipeline.py`).

Python floats are modelled as rationals (`ℚ`), Python `None` as `Option`,
Python dicts as insertion-ordered association lists.  `round(x, 4)` is
modelled as exact round-half-to-even at four decimal places on `ℚ`.
-/

namespace InvestorLens

/-! ## Rounding: Python `round(x, 4)` (banker's rounding, modelled on ℚ) -/

/-- Round a rational to the nearest integer, halves to the even neighbour. -/
def roundHalfEven (x : ℚ) : ℤ :=
  if x - (⌊x⌋ : ℚ) < 1/2 then ⌊x⌋
  else if 1/2 < x - (⌊x⌋ : ℚ) then ⌊x⌋ + 1
  else if Even ⌊x⌋ then ⌊x⌋ else ⌊x⌋ + 1

/-- Python `round(x, 4)` on our rational model of floats. -/
def round4 (x : ℚ) : ℚ := (roundHalfEven (x * 10000) : ℚ) / 10000

/-! ## Data model (`graph_traversal.CandidateCompany`, edge dicts,
`persona_configs.PersonaConfig`, `persona_ranker.RankedResult`) -/

/-- An edge dict accumulated on a candidate during retrieval.  The ranker
only reads the `"type"` key; retrieval also stores metadata keys. -/
structure GraphEdge where
  etype : String
  strength : Option ℚ := none
  direction : Option String := none
  segment : Option String := none
  themes : Option (List String) := none
  overlap : Option ℚ := none
  target : Option String := none
  partner : Option String := none
  deriving DecidableEq

/-- `CandidateCompany` dataclass: optional attribute fields default to
`None`; the graph-derived fields default to `0`. -/
structure CandidateCompany where
  company_id : String
  name : String
  sector : String := ""
  moat_durability : Option ℚ := none
  enterprise_readiness_score : Option ℚ := none
  developer_adoption_score : Option ℚ := none
  product_maturity_score : Option ℚ := none
  customer_switching_cost : Option ℚ := none
  revenue_predictability : Option ℚ := none
  market_timing_score : Option ℚ := none
  operational_improvement_potential : Option ℚ := none
  market_cap_b : Option ℚ := none
  revenue_ttm_b : Option ℚ := none
  gross_margin : Option ℚ := none
  operating_margin : Option ℚ := none
  ebitda_b : Option ℚ := none
  free_cash_flow_b : Option ℚ := none
  debt_to_equity : Option ℚ := none
  pe_ratio : Option ℚ := none
  price_to_sales : Option ℚ := none
  yoy_employee_growth : Option ℚ := none
  github_stars : Option ℚ := none
  graph_edges : List GraphEdge := []
  competition_strength : ℚ := 0
  partnership_count : ℚ := 0
  partnership_fit : ℚ := 0
  competitive_threat : ℚ := 0
  deriving DecidableEq

/-- `PersonaConfig` dataclass.  `weights` keeps the Python dict's insertion
order as an association list. -/
structure PersonaConfig where
  name : String
  display_name : String
  description : String
  weights : List (String × ℚ)
  graph_priority : List String
  inverted_attributes : List String
  binary_attributes : List (String × String)
  deriving DecidableEq

/-- `RankedResult` dataclass from `persona_ranker.py`. -/
structure RankedResult where
  company_id : String
  name : String
  composite_score : ℚ
  score_breakdown : List (String × ℚ) := []
  graph_context : List GraphEdge := []
  rank : Nat := 0
  deriving DecidableEq

/-! ## `persona_configs.py`: the five personas and the attribute source map -/

def value_investor : PersonaConfig :=
  { name := "value_investor"
    display_name := "Value Investor"
    description := "Seeks durable moats, strong free cash flow, high switching costs, and reasonable valuations."
    weights := [("moat_durability", 25/100), ("free_cash_flow_positive", 20/100),
                ("customer_switching_cost", 20/100), ("low_debt", 15/100),
                ("revenue_predictability", 10/100), ("valuation_margin", 10/100)]
    graph_priority := ["SHARES_INVESTMENT_THEME", "COMPETES_WITH"]
    inverted_attributes := ["low_debt", "valuation_margin"]
    binary_attributes := [("free_cash_flow_positive", "fcf > 0")] }

def pe_firm : PersonaConfig :=
  { name := "pe_firm"
    display_name := "PE Firm"
    description := "Targets high margins, operational improvement upside, predictable revenue, and reasonable valuation multiples."
    weights := [("operating_margin", 25/100), ("operational_improvement_potential", 20/100),
                ("revenue_predictability", 20/100), ("valuation_margin", 15/100),
                ("customer_switching_cost", 10/100), ("enterprise_readiness_score", 10/100)]
    graph_priority := ["TARGETS_SAME_SEGMENT", "COMPETES_WITH"]
    inverted_attributes := ["valuation_margin"]
    binary_attributes := [] }

def growth_vc : PersonaConfig :=
  { name := "growth_vc"
    display_name := "Growth VC"
    description := "Prioritizes fast growth, TAM capture, developer traction, and market timing over profitability."
    weights := [("yoy_employee_growth", 25/100), ("market_timing_score", 25/100),
                ("developer_adoption_score", 20/100), ("github_stars_normalized", 15/100),
                ("product_maturity_inverse", 15/100)]
    graph_priority := ["DISRUPTS", "TARGETS_SAME_SEGMENT"]
    inverted_attributes := ["product_maturity_inverse"]
    binary_attributes := [] }

def strategic_acquirer : PersonaConfig :=
  { name := "strategic_acquirer"
    display_name := "Strategic Acquirer"
    description := "Evaluates tech differentiation, partnership fit, competitive threat neutralization, and acquirability."
    weights := [("moat_durability", 25/100), ("partnership_fit", 20/100),
                ("competitive_threat", 20/100), ("developer_adoption_score", 15/100),
                ("small_enough_to_acquire", 10/100), ("product_maturity_score", 10/100)]
    graph_priority := ["DISRUPTS", "PARTNERS_WITH", "COMPETES_WITH"]
    inverted_attributes := ["small_enough_to_acquire"]
    binary_attributes := [] }

def enterprise_buyer : PersonaConfig :=
  { name := "enterprise_buyer"
    display_name := "Enterprise Buyer"
    description := "Values product maturity, enterprise readiness, ecosystem integrations, and low vendor lock-in risk."
    weights := [("product_maturity_score", 25/100), ("enterprise_readiness_score", 20/100),
                ("partnership_count", 20/100), ("customer_switching_cost_inverse", 15/100),
                ("revenue_predictability", 10/100), ("developer_adoption_score", 10/100)]
    graph_priority := ["TARGETS_SAME_SEGMENT", "PARTNERS_WITH"]
    inverted_attributes := ["customer_switching_cost_inverse"]
    binary_attributes := [] }

/-- The `PERSONAS` dict (insertion-ordered). -/
def PERSONAS : List (String × PersonaConfig) :=
  [("value_investor", value_investor), ("pe_firm", pe_firm), ("growth_vc", growth_vc),
   ("strategic_acquirer", strategic_acquirer), ("enterprise_buyer", enterprise_buyer)]

/-- Association-list lookup (Python dict `m[k]` / `m.get(k)`). -/
def alistGet {β : Type} (m : List (String × β)) (k : String) : Option β :=
  (m.find? (fun p => p.1 == k)).map (fun p => p.2)

/-- `ATTRIBUTE_SOURCE_MAP`: scoring-attribute name → (category, raw field). -/
def ATTRIBUTE_SOURCE_MAP : List (String × (String × String)) :=
  [("moat_durability", ("llm", "moat_durability")),
   ("customer_switching_cost", ("llm", "customer_switching_cost")),
   ("revenue_predictability", ("llm", "revenue_predictability")),
   ("operational_improvement_potential", ("llm", "operational_improvement_potential")),
   ("enterprise_readiness_score", ("llm", "enterprise_readiness_score")),
   ("developer_adoption_score", ("llm", "developer_adoption_score")),
   ("product_maturity_score", ("llm", "product_maturity_score")),
   ("market_timing_score", ("llm", "market_timing_score")),
   ("operating_margin", ("financial", "operating_margin")),
   ("valuation_margin", ("financial", "price_to_sales")),
   ("low_debt", ("financial", "debt_to_equity")),
   ("free_cash_flow_positive", ("financial", "free_cash_flow_b")),
   ("small_enough_to_acquire", ("financial", "market_cap_b")),
   ("yoy_employee_growth", ("growth", "yoy_employee_growth")),
   ("github_stars_normalized", ("growth", "github_stars")),
   ("partnership_fit", ("graph", "partnership_fit")),
   ("competitive_threat", ("graph", "competitive_threat")),
   ("partnership_count", ("graph", "partnership_count")),
   ("product_maturity_inverse", ("llm", "product_maturity_score")),
   ("customer_switching_cost_inverse", ("llm", "customer_switching_cost"))]

/-! ## `persona_ranker.py` -/

/-- Python `getattr(candidate, field, None)` restricted to the numeric
fields: optional fields yield their `Option` content, the graph-derived
fields (plain floats in the dataclass) always yield a value. -/
def getattrOpt (c : CandidateCompany) (f : String) : Option ℚ :=
  if f == "moat_durability" then c.moat_durability
  else if f == "enterprise_readiness_score" then c.enterprise_readiness_score
  else if f == "developer_adoption_score" then c.developer_adoption_score
  else if f == "product_maturity_score" then c.product_maturity_score
  else if f == "customer_switching_cost" then c.customer_switching_cost
  else if f == "revenue_predictability" then c.revenue_predictability
  else if f == "market_timing_score" then c.market_timing_score
  else if f == "operational_improvement_potential" then c.operational_improvement_potential
  else if f == "market_cap_b" then c.market_cap_b
  else if f == "revenue_ttm_b" then c.revenue_ttm_b
  else if f == "gross_margin" then c.gross_margin
  else if f == "operating_margin" then c.operating_margin
  else if f == "ebitda_b" then c.ebitda_b
  else if f == "free_cash_flow_b" then c.free_cash_flow_b
  else if f == "debt_to_equity" then c.debt_to_equity
  else if f == "pe_ratio" then c.pe_ratio
  else if f == "price_to_sales" then c.price_to_sales
  else if f == "yoy_employee_growth" then c.yoy_employee_growth
  else if f == "github_stars" then c.github_stars
  else if f == "competition_strength" then some c.competition_strength
  else if f == "partnership_count" then some c.partnership_count
  else if f == "partnership_fit" then some c.partnership_fit
  else if f == "competitive_threat" then some c.competitive_threat
  else none

/-- `_extract_raw_value`. -/
def extract_raw_value (cand : CandidateCompany) (attr_name : String) : Option ℚ :=
  match alistGet ATTRIBUTE_SOURCE_MAP attr_name with
  | none => none
  | some (source_type, source_field) =>
    if source_type == "graph" then getattrOpt cand source_field
    else if source_type == "llm" then getattrOpt cand source_field
    else if source_type == "financial" then getattrOpt cand source_field
    else if source_type == "growth" then getattrOpt cand source_field
    else none

/-- `_normalize_llm_score`: 1–10 → [0,1], absent → 0.5. -/
def normalize_llm_score (value : Option ℚ) : ℚ :=
  match value with
  | none => 1/2
  | some v => max 0 (min 1 (v / 10))

/-- `_minmax_normalize`: min–max over the non-absent values; absent or
zero-span → 0.5; `invert` flips the normalized value. -/
def minmax_normalize (values : List (Option ℚ)) (invert : Bool) : List ℚ :=
  let clean := values.filterMap id
  match clean with
  | [] => values.map (fun _ => 1/2)
  | c :: cs =>
    let vmin := cs.foldl min c
    let vmax := cs.foldl max c
    let span := vmax - vmin
    values.map (fun v =>
      match v with
      | none => 1/2
      | some x =>
        if span = 0 then 1/2
        else
          let normalized := (x - vmin) / span
          if invert then 1 - normalized else normalized)

/-- The per-attribute normalized column of `rank_candidates` (the entry
`attr_normalized[attr_name]`, which is a pure function of the attribute
name, the persona and the candidate list). -/
def normalizedValues (persona : PersonaConfig) (candidates : List CandidateCompany)
    (attr_name : String) : List ℚ :=
  let raw_values := candidates.map (fun cand => extract_raw_value cand attr_name)
  match alistGet ATTRIBUTE_SOURCE_MAP attr_name with
  | none => candidates.map (fun _ => 1/2)
  | some (source_type, _) =>
    let should_invert := persona.inverted_attributes.contains attr_name
    if attr_name == "free_cash_flow_positive" then
      raw_values.map (fun v =>
        match v with
        | some x => if 0 < x then 1 else 0
        | none => 0)
    else if source_type == "llm" then
      if should_invert then raw_values.map (fun v => 1 - normalize_llm_score v)
      else raw_values.map normalize_llm_score
    else if source_type == "financial" || source_type == "growth" then
      minmax_normalize raw_values should_invert
    else if source_type == "graph" then
      minmax_normalize raw_values should_invert
    else
      candidates.map (fun _ => 1/2)

/-- Membership of an edge type in the candidate's `edge_types` set. -/
def hasEdgeType (cand : CandidateCompany) (t : String) : Bool :=
  cand.graph_edges.any (fun e => e.etype == t)

/-- The graph relevance boost of `rank_candidates` (lines 144–151):
COMPETES_WITH → `max(boost, 0.15·strength)` if `competition_strength` is
truthy else a flat 0.10; DISRUPTS → `max(boost, 0.10)`;
TARGETS_SAME_SEGMENT → 0.05 only when the boost is still zero. -/
def graph_boost (cand : CandidateCompany) : ℚ :=
  let b0 : ℚ := 0
  let b1 := if hasEdgeType cand "COMPETES_WITH" then
              (if cand.competition_strength ≠ 0 then max b0 (15/100 * cand.competition_strength)
               else 1/10)
            else b0
  let b2 := if hasEdgeType cand "DISRUPTS" then max b1 (1/10) else b1
  if hasEdgeType cand "TARGETS_SAME_SEGMENT" ∧ b2 = 0 then 1/20 else b2

/-- Proof-support name for `graph_boost`'s intermediate `b1` (the value
after the COMPETES_WITH step); definitionally equal to the `let`. -/
def boostAfterComp (cand : CandidateCompany) : ℚ :=
  if hasEdgeType cand "COMPETES_WITH" then
    (if cand.competition_strength ≠ 0 then max 0 (15/100 * cand.competition_strength)
     else 1/10)
  else 0

/-- Proof-support name for `graph_boost`'s intermediate `b2` (the value
after the DISRUPTS step). -/
def boostAfterDisrupt (cand : CandidateCompany) : ℚ :=
  if hasEdgeType cand "DISRUPTS" then max (boostAfterComp cand) (1/10)
  else boostAfterComp cand

/-- Score one candidate (the body of the `for i, cand in enumerate` loop):
weighted normalized attributes plus the graph boost, with the rounded
per-attribute breakdown. -/
def scoreCandidate (persona : PersonaConfig) (candidates : List CandidateCompany)
    (i : Nat) (cand : CandidateCompany) : RankedResult :=
  let contribs := persona.weights.map (fun aw =>
    (aw.1, ((normalizedValues persona candidates aw.1).getD i (1/2)) * aw.2))
  let composite := (contribs.map (fun p => p.2)).sum + graph_boost cand
  { company_id := cand.company_id
    name := cand.name
    composite_score := round4 composite
    score_breakdown := contribs.map (fun p => (p.1, round4 p.2))
                       ++ [("_graph_boost", round4 (graph_boost cand))]
    graph_context := cand.graph_edges
    rank := 0 }

/-- The unsorted result list, in candidate (retrieval) order. -/
def scoreList (persona : PersonaConfig) (all : List CandidateCompany) :
    Nat → List CandidateCompany → List RankedResult
  | _, [] => []
  | i, c :: rest => scoreCandidate persona all i c :: scoreList persona all (i + 1) rest

/-- Descending order on composite score; Python's stable `list.sort` with
`reverse=True` keeps ties in input order, which a stable insertion sort
with this relation reproduces exactly. -/
def rankRel (a b : RankedResult) : Prop := b.composite_score ≤ a.composite_score

instance : DecidableRel rankRel := fun a b =>
  inferInstanceAs (Decidable (b.composite_score ≤ a.composite_score))

instance : IsTotal RankedResult rankRel :=
  ⟨fun a b => le_total b.composite_score a.composite_score⟩

instance : IsTrans RankedResult rankRel :=
  ⟨fun _ _ _ h1 h2 => le_trans h2 h1⟩

/-- `for i, r in enumerate(results): r.rank = i + 1`. -/
def assignRanks : Nat → List RankedResult → List RankedResult
  | _, [] => []
  | i, r :: rest => { r with rank := i + 1 } :: assignRanks (i + 1) rest

/-- `rank_candidates(candidates, persona, acquirer)`: score, stable-sort
descending by composite score, then assign dense 1-based ranks.  The
`acquirer` argument is accepted and unused, as in the source. -/
def rank_candidates (candidates : List CandidateCompany) (persona : PersonaConfig)
    (acquirer : String) : List RankedResult :=
  if candidates.isEmpty then []
  else
    let results := scoreList persona candidates 0 candidates
    let sorted := List.insertionSort rankRel results
    assignRanks 0 sorted

/-! ## `graph_traversal.py`: `get_competitors_to`

The Neo4j driver is abstracted as data: one list of raw records per
traversal strategy, in the order the driver yields them.  The merge map
is a Python dict keyed by `company_id`, modelled as an insertion-ordered
association list (updates keep the original position). -/

/-- `_record_to_candidate(record, edges)`: the record's attribute payload
with the given edge list; the four graph-derived floats stay at their
dataclass defaults. -/
def record_to_candidate (rec : CandidateCompany) (edges : List GraphEdge) : CandidateCompany :=
  { rec with graph_edges := edges, competition_strength := 0,
             partnership_count := 0, partnership_fit := 0, competitive_threat := 0 }

/-- Driver result sets consumed by `get_competitors_to`; fields mirror the
columns each Cypher query RETURNs alongside the company attributes. -/
structure CompetitorQueryResults where
  competes : List (CandidateCompany × Option ℚ)
  same_segment : List (CandidateCompany × Option String)
  shared_theme : List (CandidateCompany × List String × ℚ)
  disrupts : List (CandidateCompany × Option ℚ × Option String)
  partner_counts : List (String × ℚ)

/-- Python dict insert-or-replace: an existing key keeps its position. -/
def upsertReplace (m : List (String × CandidateCompany)) (cid : String)
    (cand : CandidateCompany) : List (String × CandidateCompany) :=
  if m.any (fun p => p.1 == cid) then
    m.map (fun p => if p.1 == cid then (p.1, cand) else p)
  else m ++ [(cid, cand)]

/-- `candidates[cid].graph_edges.append(edge)` when present, else insert a
fresh candidate from the record. -/
def mergeEdge (m : List (String × CandidateCompany)) (rec : CandidateCompany)
    (edge : GraphEdge) : List (String × CandidateCompany) :=
  if m.any (fun p => p.1 == rec.company_id) then
    m.map (fun p => if p.1 == rec.company_id
                    then (p.1, { p.2 with graph_edges := p.2.graph_edges ++ [edge] })
                    else p)
  else m ++ [(rec.company_id, record_to_candidate rec [edge])]

/-- Strategy 1: direct COMPETES_WITH rows; each row replaces any previous
entry for the same id and sets `competition_strength = strength or 0.0`. -/
def competesStep (rows : List (CandidateCompany × Option ℚ))
    (m : List (String × CandidateCompany)) : List (String × CandidateCompany) :=
  rows.foldl (fun m row =>
    let cand := { record_to_candidate row.1 [{ etype := "COMPETES_WITH", strength := row.2 }]
                  with competition_strength := (row.2).getD 0 }
    upsertReplace m row.1.company_id cand) m

/-- Strategy 2: TARGETS_SAME_SEGMENT sibling rows (edge-append merge). -/
def segmentStep (rows : List (CandidateCompany × Option String))
    (m : List (String × CandidateCompany)) : List (String × CandidateCompany) :=
  rows.foldl (fun m row =>
    mergeEdge m row.1 { etype := "TARGETS_SAME_SEGMENT", segment := row.2 }) m

/-- Strategy 3: SHARES_INVESTMENT_THEME overlap rows (edge-append merge). -/
def themeStep (rows : List (CandidateCompany × List String × ℚ))
    (m : List (String × CandidateCompany)) : List (String × CandidateCompany) :=
  rows.foldl (fun m row =>
    mergeEdge m row.1 { etype := "SHARES_INVESTMENT_THEME", themes := some row.2.1,
                        overlap := some row.2.2 }) m

/-- Strategy 4: DISRUPTS rows in either direction (edge-append merge). -/
def disruptsStep (rows : List (CandidateCompany × Option ℚ × Option String))
    (m : List (String × CandidateCompany)) : List (String × CandidateCompany) :=
  rows.foldl (fun m row =>
    mergeEdge m row.1 { etype := "DISRUPTS", strength := row.2.1, direction := row.2.2 }) m

/-- The strong-edge test of the filter phase: the candidate's edge-type set
meets `{COMPETES_WITH, DISRUPTS, TARGETS_SAME_SEGMENT}`. -/
def hasStrongEdge (cand : CandidateCompany) : Bool :=
  cand.graph_edges.any (fun e =>
    e.etype == "COMPETES_WITH" || e.etype == "DISRUPTS" || e.etype == "TARGETS_SAME_SEGMENT")

/-- `_enrich_partnership_counts`: set `partnership_count` from the batched
count query's rows for ids already in the map. -/
def enrichPartnershipCounts (counts : List (String × ℚ))
    (m : List (String × CandidateCompany)) : List (String × CandidateCompany) :=
  counts.foldl (fun m row =>
    m.map (fun p => if p.1 == row.1 then (p.1, { p.2 with partnership_count := row.2 }) else p)) m

/-- `get_competitors_to`: merge the four strategies, drop candidates whose
only edges are shared-theme, enrich partnership counts, return the dict's
values in insertion order. -/
def get_competitors_to (q : CompetitorQueryResults) : List CandidateCompany :=
  let m := competesStep q.competes []
  let m := segmentStep q.same_segment m
  let m := themeStep q.shared_theme m
  let m := disruptsStep q.disrupts m
  let filtered := m.filter (fun p => hasStrongEdge p.2)
  let enriched := enrichPartnershipCounts q.partner_counts filtered
  enriched.map (fun p => p.2)

/-! ## `query_parser.py`

Queries are modelled as ASCII character lists.  Python string helpers
(`lower`, `strip`, `rstrip(".")`, `in`, `replace(_, _, 1)`) are embedded
directly.  The `re` patterns of the source use only literals, character
classes, alternation, option, greedy/lazy repetition of a character class,
`\b` and `$`, so a small backtracking engine with Python's leftmost-first
search order embeds them exactly (inputs carry no newline, so `$` is
end-of-string). -/

/-- Python `str.lower` on an ASCII character. -/
def lowerChar (c : Char) : Char :=
  if 'A' ≤ c ∧ c ≤ 'Z' then Char.ofNat (c.toNat + 32) else c

def toLowerL (s : List Char) : List Char := s.map lowerChar

/-- Python whitespace for `str.strip` and the regex class `\s`. -/
def isSpaceChar (c : Char) : Bool :=
  c == ' ' || c == '\t' || c == '\n' || c == '\r' || c == '\x0b' || c == '\x0c'

def stripWs (s : List Char) : List Char :=
  ((s.dropWhile isSpaceChar).reverse.dropWhile isSpaceChar).reverse

/-- Python `str.rstrip(".")`. -/
def rstripDots (s : List Char) : List Char :=
  (s.reverse.dropWhile (fun c => c == '.')).reverse

/-- Python substring test `needle in hay`. -/
def containsSub (needle : List Char) : List Char → Bool
  | [] => needle.isEmpty
  | c :: t => needle.isPrefixOf (c :: t) || containsSub needle t

/-- Python `hay.replace(needle, repl, 1)`. -/
def replaceFirst (needle repl : List Char) : List Char → List Char
  | [] => if needle.isEmpty then repl else []
  | c :: t =>
    if needle.isPrefixOf (c :: t) then repl ++ (c :: t).drop needle.length
    else c :: replaceFirst needle repl t

/-- Regex `\w` (ASCII). -/
def isWordChar (c : Char) : Bool := c.isAlphanum || c == '_'

/-- Regex `.` (anything but newline). -/
def isDotChar (c : Char) : Bool := c != '\n'

/-- Regex class `[rs]`. -/
def isRorS (c : Char) : Bool := c == 'r' || c == 's'

/-- Abstract syntax of the regex fragment used by the source patterns.
`starC lazy p` is `p*` (lazy when the flag is set); `+` is encoded as a
class followed by its star. -/
inductive RE where
  | eps : RE
  | cls : (Char → Bool) → RE
  | lit : List Char → RE
  | seq : RE → RE → RE
  | alt : RE → RE → RE
  | starC : Bool → (Char → Bool) → RE
  | grp : Nat → RE → RE
  | bnd : RE
  | eol : RE

/-- Captured group spans: (index, start, stop), most recent first. -/
abbrev Groups := List (Nat × Nat × Nat)

/-- Length of the run of characters satisfying `p`. -/
def countWhile (p : Char → Bool) : List Char → Nat
  | [] => 0
  | c :: t => if p c then countWhile p t + 1 else 0

def wordAt (input : List Char) (i : Nat) : Bool :=
  match input[i]? with
  | some c => isWordChar c
  | none => false

/-- Regex `\b`: word-ness differs on the two sides of the position. -/
def atWordBoundary (input : List Char) : Nat → Bool
  | 0 => wordAt input 0
  | p + 1 => wordAt input p != wordAt input (p + 1)

/-- Try the continuation at `pos + c` for each repetition count `c` in
order (ascending for lazy stars, descending for greedy ones). -/
def tryCounts (k : Nat → Option Groups) (pos : Nat) : List Nat → Option Groups
  | [] => none
  | c :: rest =>
    match k (pos + c) with
    | some g => some g
    | none => tryCounts k pos rest

/-- Backtracking matcher in continuation style, with Python `re`'s
attempt order: alternation left first, greedy stars longest first, lazy
stars shortest first. -/
def reMatch (input : List Char) : RE → Nat → Groups → (Nat → Groups → Option Groups) → Option Groups
  | .eps, pos, gs, k => k pos gs
  | .cls p, pos, gs, k =>
    match input[pos]? with
    | some c => if p c then k (pos + 1) gs else none
    | none => none
  | .lit s, pos, gs, k =>
    if s.isPrefixOf (input.drop pos) then k (pos + s.length) gs else none
  | .seq a b, pos, gs, k =>
    reMatch input a pos gs (fun pos2 gs2 => reMatch input b pos2 gs2 k)
  | .alt a b, pos, gs, k =>
    match reMatch input a pos gs k with
    | some g => some g
    | none => reMatch input b pos gs k
  | .starC lz p, pos, gs, k =>
    let m := countWhile p (input.drop pos)
    let counts := if lz then List.range (m + 1) else (List.range (m + 1)).reverse
    tryCounts (fun pos2 => k pos2 gs) pos counts
  | .grp i a, pos, gs, k =>
    reMatch input a pos gs (fun pos2 gs2 => k pos2 ((i, pos, pos2) :: gs2))
  | .bnd, pos, gs, k => if atWordBoundary input pos then k pos gs else none
  | .eol, pos, gs, k => if pos == input.length then k pos gs else none

def searchFromList (input : List Char) (r : RE) : List Nat → Option Groups
  | [] => none
  | p :: rest =>
    match reMatch input r p [] (fun _ gs => some gs) with
    | some gs => some gs
    | none => searchFromList input r rest

/-- `re.search`: leftmost start position wins. -/
def reSearch (input : List Char) (r : RE) : Option Groups :=
  searchFromList input r (List.range (input.length + 1))

/-- `m.group(i)` (last completed capture of that index). -/
def groupText (input : List Char) (gs : Groups) (i : Nat) : List Char :=
  match gs.find? (fun g => g.1 == i) with
  | some g => (input.take g.2.2).drop g.2.1
  | none => []

def reLit (s : String) : RE := RE.lit s.toList

/-- Greedy `?`. -/
def reOpt (r : RE) : RE := RE.alt r RE.eps

def reSeq (l : List RE) : RE := l.foldr RE.seq RE.eps

/-- `\s*`. -/
def ws0 : RE := RE.starC false isSpaceChar

/-- `\s+` (greedy). -/
def ws1 : RE := RE.seq (RE.cls isSpaceChar) (RE.starC false isSpaceChar)

/-- `(.+?)` body: lazy one-or-more of `.`. -/
def dotLazyPlus : RE := RE.seq (RE.cls isDotChar) (RE.starC true isDotChar)

/-- `.*?`. -/
def dotLazyStar : RE := RE.starC true isDotChar

/-- `\w+` (greedy). -/
def wordPlus : RE := RE.seq (RE.cls isWordChar) (RE.starC false isWordChar)

/-- `(?:\s+through|\s+from|\s+in\s+a|\s*$)`. -/
def tailRe : RE :=
  RE.alt (reSeq [ws1, reLit "through"])
    (RE.alt (reSeq [ws1, reLit "from"])
      (RE.alt (reSeq [ws1, reLit "in", ws1, reLit "a"])
        (reSeq [ws0, RE.eol])))

/-- `(?:to|of|for)`. -/
def toOfFor : RE := RE.alt (reLit "to") (RE.alt (reLit "of") (reLit "for"))

def comp_patterns : List RE :=
  [reSeq [reLit "competitor", reOpt (reLit "s"), ws1, toOfFor, ws1, RE.grp 1 dotLazyPlus, tailRe],
   reSeq [reLit "who", ws1, reLit "compete", reOpt (reLit "s"), ws1, reLit "with", ws1,
          RE.grp 1 dotLazyPlus, tailRe],
   reSeq [reLit "competition", ws1, toOfFor, ws1, RE.grp 1 dotLazyPlus, tailRe],
   reSeq [reLit "rival", reOpt (reLit "s"), ws1, toOfFor, ws1, RE.grp 1 dotLazyPlus, tailRe]]

/-- `vs\.?`. -/
def vsDot : RE := RE.seq (reLit "vs") (reOpt (reLit "."))

def cmp_patterns : List RE :=
  [reSeq [reLit "compare", ws1, RE.grp 1 dotLazyPlus, ws1,
          RE.alt vsDot (RE.alt (reLit "versus") (RE.alt (reLit "and") (reLit "with"))),
          ws1, RE.grp 2 dotLazyPlus, tailRe],
   reSeq [RE.grp 1 dotLazyPlus, ws1, RE.alt vsDot (reLit "versus"), ws1,
          RE.grp 2 dotLazyPlus, tailRe]]

def acq_patterns : List RE :=
  [reSeq [reLit "acquisition", ws1, reLit "target", ws1, reLit "for", ws1, RE.grp 1 dotLazyPlus,
          ws1, reLit "to", ws1, reLit "compete", ws1, reLit "with", ws1, RE.grp 2 dotLazyPlus,
          ws0, RE.eol],
   reSeq [RE.alt (reLit "what") (RE.alt (reLit "which") (reLit "best")), ws1, dotLazyStar,
          reLit "acqui", wordPlus, ws1, dotLazyStar, reLit "for", ws1, RE.grp 1 dotLazyPlus,
          ws1, dotLazyStar, RE.alt (reLit "against") (RE.alt (reLit "compete") (reLit "rival")),
          ws1, dotLazyStar, RE.grp 2 dotLazyPlus, ws0, RE.eol],
   reSeq [RE.grp 1 dotLazyPlus, ws1, reLit "should", ws1, reLit "acqui", wordPlus, ws1,
          reLit "to", ws1, reLit "compete", ws1, reLit "with", ws1, RE.grp 2 dotLazyPlus,
          ws0, RE.eol]]

/-- `_PERSONA_PATTERNS`, in dict order. -/
def persona_pattern_list : List (String × RE) :=
  [("value_investor", reSeq [reLit "value", ws1, reLit "invest"]),
   ("pe_firm", RE.alt (reSeq [RE.bnd, reLit "pe", RE.bnd])
                 (reSeq [reLit "private", ws1, reLit "equity"])),
   ("growth_vc", RE.alt (reSeq [RE.bnd, reLit "vc", RE.bnd])
                   (RE.alt (reSeq [reLit "venture", ws1, reLit "capital"])
                     (reSeq [reLit "growth", RE.bnd]))),
   ("strategic_acquirer", RE.alt (reLit "strateg") (RE.seq (reLit "acqui") (RE.cls isRorS))),
   ("enterprise_buyer", RE.alt (reSeq [reLit "enterprise", ws1, reLit "buyer"]) (reLit "buyer"))]

/-- `(\w+)\s+lens`. -/
def lensRe : RE := reSeq [RE.grp 1 wordPlus, ws1, reLit "lens"]

def firstPersonaMatch (q : List Char) : List (String × RE) → Option String
  | [] => none
  | (nm, r) :: rest => if (reSearch q r).isSome then some nm else firstPersonaMatch q rest

/-- `_detect_persona`. -/
def detect_persona (query : List Char) : Option String :=
  let q := toLowerL query
  match firstPersonaMatch q persona_pattern_list with
  | some nm => some nm
  | none =>
    if containsSub "lens".toList q then
      match reSearch q lensRe with
      | some gs =>
        let word := toLowerL (groupText q gs 1)
        if word = "pe".toList ∨ word = "private".toList then some "pe_firm"
        else if word = "vc".toList ∨ word = "growth".toList ∨ word = "venture".toList then
          some "growth_vc"
        else if word = "value".toList then some "value_investor"
        else if word = "buyer".toList ∨ word = "enterprise".toList then some "enterprise_buyer"
        else if word = "acquirer".toList ∨ word = "strategic".toList then
          some "strategic_acquirer"
        else none
      | none => none
    else none

/-- `_ATTRIBUTE_MAP`, in dict order. -/
def ATTRIBUTE_MAP : List (String × String) :=
  [("moat", "moat_durability"), ("moats", "moat_durability"),
   ("moat durability", "moat_durability"),
   ("enterprise readiness", "enterprise_readiness_score"),
   ("enterprise ready", "enterprise_readiness_score"),
   ("developer adoption", "developer_adoption_score"),
   ("developer traction", "developer_adoption_score"),
   ("product maturity", "product_maturity_score"), ("mature", "product_maturity_score"),
   ("switching cost", "customer_switching_cost"),
   ("switching costs", "customer_switching_cost"), ("lock-in", "customer_switching_cost"),
   ("revenue predictability", "revenue_predictability"),
   ("predictable revenue", "revenue_predictability"),
   ("recurring revenue", "revenue_predictability"),
   ("market timing", "market_timing_score"),
   ("operational improvement", "operational_improvement_potential"),
   ("margin", "operating_margin"), ("growth", "yoy_employee_growth"),
   ("revenue", "revenue_ttm_b"), ("market cap", "market_cap_b")]

/-- Stable sort of an association list by key length, longest first
(Python `sorted(d, key=len, reverse=True)` keeps dict order on ties). -/
def sortKeysByLenDesc {β : Type} (l : List (List Char × β)) : List (List Char × β) :=
  List.insertionSort (fun a b => b.1.length ≤ a.1.length) l

/-- `_detect_attribute`: longest matching phrase wins. -/
def detect_attribute (query : List Char) : Option String :=
  let q := toLowerL query
  let sorted := sortKeysByLenDesc (ATTRIBUTE_MAP.map (fun p => (p.1.toList, p.2)))
  (sorted.find? (fun p => containsSub p.1 q)).map (fun p => p.2)

/-- `_ALIASES`, in dict order. -/
def ALIASES : List (String × String) :=
  [("snow", "snowflake"), ("snowflake", "snowflake"), ("snowflake inc", "snowflake"),
   ("databricks", "databricks"), ("bigquery", "bigquery"), ("google bigquery", "bigquery"),
   ("redshift", "redshift"), ("amazon redshift", "redshift"), ("aws redshift", "redshift"),
   ("azure synapse", "azure_synapse"), ("synapse", "azure_synapse"),
   ("teradata", "teradata"), ("teradata corporation", "teradata"),
   ("cloudera", "cloudera"), ("motherduck", "motherduck"), ("mother duck", "motherduck"),
   ("c3 ai", "c3ai"), ("c3ai", "c3ai"), ("c3", "c3ai"),
   ("palantir", "palantir"), ("palantir technologies", "palantir"),
   ("dataiku", "dataiku"), ("datarobot", "datarobot"), ("data robot", "datarobot"),
   ("h2o", "h2o_ai"), ("h2o ai", "h2o_ai"), ("h2o.ai", "h2o_ai"),
   ("scale ai", "scale_ai"), ("scale", "scale_ai"),
   ("wandb", "wandb"), ("weights and biases", "wandb"), ("weights & biases", "wandb"),
   ("w&b", "wandb"),
   ("hugging face", "huggingface"), ("huggingface", "huggingface"),
   ("fivetran", "fivetran"), ("dbt", "dbt_labs"), ("dbt labs", "dbt_labs"),
   ("airbyte", "airbyte"), ("informatica", "informatica"), ("informatica inc", "informatica"),
   ("talend", "talend"), ("qlik", "talend"), ("matillion", "matillion"),
   ("monte carlo", "monte_carlo"), ("montecarlo", "monte_carlo"),
   ("atlan", "atlan"), ("alation", "alation"),
   ("great expectations", "great_expectations"), ("collibra", "collibra"),
   ("pinecone", "pinecone"), ("weaviate", "weaviate"), ("chroma", "chroma"),
   ("zilliz", "zilliz"), ("milvus", "zilliz"), ("zilliz milvus", "zilliz"),
   ("qdrant", "qdrant"), ("firebolt", "firebolt"), ("clickhouse", "clickhouse"),
   ("starrocks", "starrocks"), ("star rocks", "starrocks"),
   ("neon", "neon"), ("supabase", "supabase"),
   ("google", "bigquery"), ("amazon", "redshift"), ("aws", "redshift"),
   ("microsoft", "azure_synapse")]

/-- Modelled from the spec: the Company Catalog (`companies.json`,
consumed by `_build_lookup`) is a data file that is not part of the
sources; the model takes the catalog as data and instantiates it empty,
so the concrete lookup is the static alias table alone. -/
def COMPANY_CATALOG : List (String × String) := []

/-- Python dict insert-or-replace for the lookup table. -/
def upsertKey {β : Type} (m : List (List Char × β)) (k : List Char) (v : β) :
    List (List Char × β) :=
  if m.any (fun p => p.1 == k) then
    m.map (fun p => if p.1 == k then (p.1, v) else p)
  else m ++ [(k, v)]

/-- `_build_lookup`: aliases, then per catalog company its lowered
dot-stripped name, its id, and the name with a company suffix removed. -/
def build_lookup (catalog : List (String × String)) : List (List Char × String) :=
  catalog.foldl (fun lk entry =>
    let cid := entry.1
    let name_lower := rstripDots (stripWs (toLowerL entry.2.toList))
    let lk := upsertKey lk name_lower cid
    let lk := upsertKey lk cid.toList cid
    [" inc", " corporation", " technologies"].foldl (fun lk suf =>
      if suf.toList.isSuffixOf name_lower then
        upsertKey lk (stripWs (name_lower.take (name_lower.length - suf.length))) cid
      else lk) lk)
    (ALIASES.map (fun p => (p.1.toList, p.2)))

def COMPANY_LOOKUP : List (List Char × String) := build_lookup COMPANY_CATALOG

/-- The key preparation of `resolve_company`: `name.lower().strip().rstrip(".")`. -/
def prepKey (name : List Char) : List Char := rstripDots (stripWs (toLowerL name))

def lookupGet (lookup : List (List Char × String)) (k : List Char) : Option String :=
  (lookup.find? (fun p => p.1 == k)).map (fun p => p.2)

/-- The substring phase of `resolve_company`: fold over the table keeping
the longest alias occurring in the key (strictly longer wins; ties keep
the earliest). -/
def bestSubstrMatch (lookup : List (List Char × String)) (key : List Char) :
    Option String × Nat :=
  lookup.foldl (fun best p =>
    if best.2 < p.1.length && containsSub p.1 key then (some p.2, p.1.length) else best)
    (none, 0)

/-- `resolve_company` against an explicit lookup table. -/
def resolveWith (lookup : List (List Char × String)) (name : List Char) : Option String :=
  let key := prepKey name
  match lookupGet lookup key with
  | some cid => some cid
  | none => (bestSubstrMatch lookup key).1

/-- `resolve_company` (module-level lookup). -/
def resolve_company (name : String) : Option String :=
  resolveWith COMPANY_LOOKUP name.toList

/-- The loop of `_extract_companies_from_query`: aliases in
longest-first order; on a fresh hit, record the id and blank the matched
text out of the working copy. -/
def extractLoop : List (List Char × String) → List String → List Char → List String
  | [], found, _ => found
  | (al, cid) :: rest, found, q =>
    if containsSub al q && decide (2 < al.length) then
      if found.contains cid then extractLoop rest found q
      else extractLoop rest (found ++ [cid]) (replaceFirst al [' '] q)
    else extractLoop rest found q

/-- `_extract_companies_from_query`. -/
def extract_companies (query : List Char) : List String :=
  extractLoop (sortKeysByLenDesc COMPANY_LOOKUP) [] (toLowerL query)

/-- `ParsedQuery` dataclass. -/
structure ParsedQuery where
  query_type : String
  raw_query : String
  target_company : String := ""
  compare_company : String := ""
  acquirer : String := ""
  persona : Option String := none
  attribute_ : Option String := none
  deriving DecidableEq

/-- The competitors loop: first pattern that matches and whose captured
entity resolves; a match whose entity fails to resolve falls through. -/
def tryCompetitors (q : List Char) : List RE → Option String
  | [] => none
  | pat :: rest =>
    match reSearch q pat with
    | some gs =>
      match resolveWith COMPANY_LOOKUP (stripWs (groupText q gs 1)) with
      | some target => some target
      | none => tryCompetitors q rest
    | none => tryCompetitors q rest

/-- The two-entity loops (compare and acquisition shapes): both captures
must resolve. -/
def tryPair (q : List Char) : List RE → Option (String × String)
  | [] => none
  | pat :: rest =>
    match reSearch q pat with
    | some gs =>
      match resolveWith COMPANY_LOOKUP (stripWs (groupText q gs 1)),
            resolveWith COMPANY_LOOKUP (stripWs (groupText q gs 2)) with
      | some a, some b => some (a, b)
      | _, _ => tryPair q rest
    | none => tryPair q rest

def ATTR_KEYWORDS : List String :=
  ["which", "strongest", "best", "highest", "top", "most", "leading"]

/-- `parse_query`. -/
def parse_query (query : String) : ParsedQuery :=
  let qR := query.toList
  let q := stripWs (toLowerL qR)
  let persona := detect_persona qR
  match tryCompetitors q comp_patterns with
  | some target =>
    { query_type := "competitors_to", raw_query := query, target_company := target,
      persona := persona }
  | none =>
    match tryPair q cmp_patterns with
    | some ab =>
      { query_type := "compare", raw_query := query, target_company := ab.1,
        compare_company := ab.2, persona := persona }
    | none =>
      match tryPair q acq_patterns with
      | some ab =>
        { query_type := "acquisition_target", raw_query := query, acquirer := ab.1,
          target_company := ab.2, persona := some (persona.getD "strategic_acquirer") }
      | none =>
        let attr := detect_attribute qR
        if attr.isSome && ATTR_KEYWORDS.any (fun kw => containsSub kw.toList q) then
          { query_type := "attribute_search", raw_query := query, attribute_ := attr,
            persona := persona }
        else
          let companies := extract_companies qR
          if 2 ≤ companies.length then
            { query_type := "compare", raw_query := query,
              target_company := companies.getD 0 "", compare_company := companies.getD 1 "",
              persona := persona }
          else if companies.length == 1 then
            { query_type := "competitors_to", raw_query := query,
              target_company := companies.getD 0 "", persona := persona }
          else if attr.isSome then
            { query_type := "attribute_search", raw_query := query, attribute_ := attr,
              persona := persona }
          else
            { query_type := "attribute_search", raw_query := query,
              attribute_ := some "moat_durability", persona := persona }

/-! ## `search_pipeline.py`

The orchestrator.  The Neo4j driver is abstracted as a record of the
retrieval operations it backs (each a pure read, per §6 of the spec);
wall-clock metadata is out of the model. -/

/-- `get_compare_data`'s result dict. -/
structure CompareData where
  company_a : Option CandidateCompany := none
  company_b : Option CandidateCompany := none
  shared_edges : List GraphEdge := []
  common_competitors : List CandidateCompany := []
  shared_segments : List String := []
  shared_themes : List String := []
  deriving DecidableEq

/-- `get_graph_data`'s visualization payload (opaque to the claims). -/
structure GraphData where
  nodes : List String := []
  edges : List GraphEdge := []
  deriving DecidableEq

/-- The read-only graph-store operations the orchestrator dispatches to. -/
structure GraphStore where
  competitorsTo : String → String → List CandidateCompany
  compareData : String → String → CompareData
  acquisitionTargets : String → String → List CandidateCompany
  attributeRanked : String → List CandidateCompany
  graphData : List String → String → GraphData

/-- `SearchResult` dataclass (metadata reduced to `candidate_count`). -/
structure SearchResult where
  query : ParsedQuery
  persona : String
  persona_display : String
  results : List RankedResult := []
  compare_data : Option CompareData := none
  graph_data : GraphData := {}
  candidate_count : Nat := 0
  error : Option String := none
  deriving DecidableEq

/-- `get_persona` (`PERSONAS[name]`); total here because `search` only
calls it after membership has been established (or with a literal). -/
def get_persona (name : String) : PersonaConfig :=
  (alistGet PERSONAS name).getD value_investor

/-- `search(query, persona)`: parse, resolve the active persona
(query-embedded wins, unknown falls back to value_investor), retrieve by
intent, rank, and assemble. -/
def search (store : GraphStore) (query : String) (personaArg : String) : SearchResult :=
  let parsed := parse_query query
  let requested := (parsed.persona).getD personaArg
  let active_persona := if (PERSONAS.map (fun p => p.1)).contains requested
                        then requested else "value_investor"
  let persona_config := get_persona active_persona
  if parsed.query_type == "competitors_to" then
    let candidates := store.competitorsTo parsed.target_company active_persona
    let ranked := rank_candidates candidates persona_config ""
    let company_ids := parsed.target_company :: (ranked.take 10).map (fun r => r.company_id)
    let graph := store.graphData company_ids parsed.target_company
    { query := parsed, persona := active_persona,
      persona_display := persona_config.display_name, results := ranked,
      graph_data := graph, candidate_count := candidates.length }
  else if parsed.query_type == "compare" then
    let compare_data := store.compareData parsed.target_company parsed.compare_company
    let all_candidates :=
      ((compare_data.company_a).toList ++ (compare_data.company_b).toList)
      ++ compare_data.common_competitors
    let ranked := rank_candidates all_candidates persona_config ""
    let company_ids := parsed.target_company :: parsed.compare_company ::
      compare_data.common_competitors.map (fun c => c.company_id)
    let graph := store.graphData company_ids ""
    { query := parsed, persona := active_persona,
      persona_display := persona_config.display_name, results := ranked,
      compare_data := some compare_data, graph_data := graph,
      candidate_count := all_candidates.length }
  else if parsed.query_type == "acquisition_target" then
    let candidates := store.acquisitionTargets parsed.acquirer parsed.target_company
    let acq_persona := get_persona "strategic_acquirer"
    let ranked := rank_candidates candidates acq_persona parsed.acquirer
    let company_ids := parsed.acquirer :: parsed.target_company ::
      (ranked.take 10).map (fun r => r.company_id)
    let graph := store.graphData company_ids parsed.target_company
    { query := parsed, persona := "strategic_acquirer",
      persona_display := acq_persona.display_name, results := ranked,
      graph_data := graph, candidate_count := candidates.length }
  else if parsed.query_type == "attribute_search" then
    let candidates := store.attributeRanked ((parsed.attribute_).getD "moat_durability")
    let ranked := rank_candidates candidates persona_config ""
    let company_ids := (ranked.take 10).map (fun r => r.company_id)
    let graph := store.graphData company_ids ""
    { query := parsed, persona := active_persona,
      persona_display := persona_config.display_name, results := ranked,
      graph_data := graph, candidate_count := candidates.length }
  else
    { query := parsed, persona := active_persona,
      persona_display := persona_config.display_name,
      error := some "Unknown query type" }

/-! ## Definitions written from the spec's words, for comparison

These two definitions follow the claim text (not the source); theorems
compare them against the embedded source behaviour. -/

/-- Modelled from the spec: the claimed boost ladder of C2 — a
COMPETES_WITH edge always dominates (0.15 × strength when a strength
value exists, flat 0.10 otherwise); otherwise DISRUPTS gives 0.10;
otherwise TARGETS_SAME_SEGMENT gives 0.05; shared-theme-only gives none. -/
def boost_claim_ladder (cand : CandidateCompany) : ℚ :=
  if hasEdgeType cand "COMPETES_WITH" then
    (if cand.competition_strength ≠ 0 then 15/100 * cand.competition_strength else 1/10)
  else if hasEdgeType cand "DISRUPTS" then 1/10
  else if hasEdgeType cand "TARGETS_SAME_SEGMENT" then 1/20
  else 0

/-- Modelled from the spec: the claimed fallback-entity order of C7 —
distinct resolved entities listed in order of first appearance in the
text (scanning positions left to right; aliases longer than two
characters, as in the code's filter). -/
def extract_companies_by_first_appearance (query : List Char) : List String :=
  let q := toLowerL query
  (List.range (q.length + 1)).foldl (fun found i =>
    COMPANY_LOOKUP.foldl (fun found p =>
      if p.1.isPrefixOf (q.drop i) && decide (2 < p.1.length) && !(found.contains p.2)
      then found ++ [p.2] else found) found) []

/-! ## Concrete inputs used by witnesses and counterexamples -/

/-- A candidate with every optional attribute absent and no edges. -/
def blankCandidate : CandidateCompany := { company_id := "c0", name := "C0" }

/-- A candidate holding a half-strength COMPETES_WITH edge and a DISRUPTS
edge: the disruption boost (0.10) exceeds 0.15 × 0.5 = 0.075. -/
def compDisCandidate : CandidateCompany :=
  { company_id := "c1"
    name := "C1"
    graph_edges := [{ etype := "COMPETES_WITH", strength := some (1/2) },
                    { etype := "DISRUPTS" }]
    competition_strength := 1/2 }

/-- A candidate whose only edge is shared-theme. -/
def themeOnlyCandidate : CandidateCompany :=
  { company_id := "c2"
    name := "C2"
    graph_edges := [{ etype := "SHARES_INVESTMENT_THEME", themes := some ["ai"],
                      overlap := some 1 }] }

/-- Concrete driver results for `get_competitors_to`: one direct
competitor and one theme-only company (which the filter must drop). -/
def sampleCompetitorResults : CompetitorQueryResults :=
  { competes := [({ company_id := "c1", name := "C1" }, some 1)]
    same_segment := []
    shared_theme := [({ company_id := "c2", name := "C2" }, ["ai"], 1)]
    disrupts := []
    partner_counts := [] }

/-- The candidate `get_competitors_to sampleCompetitorResults` returns. -/
def sampleCompetitorOutput : CandidateCompany :=
  { company_id := "c1"
    name := "C1"
    graph_edges := [{ etype := "COMPETES_WITH", strength := some 1 }]
    competition_strength := 1 }

/-- A trivial graph store for orchestrator witnesses. -/
def emptyStore : GraphStore :=
  { competitorsTo := fun _ _ => []
    compareData := fun _ _ => {}
    acquisitionTargets := fun _ _ => []
    attributeRanked := fun _ => []
    graphData := fun _ _ => {} }

/-! # Theorems -/

/-! ## Rounding lemmas -/

theorem roundHalfEven_nonneg {x : ℚ} (hx : 0 ≤ x) : 0 ≤ roundHalfEven x := by
  have hf : (0:ℤ) ≤ ⌊x⌋ := Int.floor_nonneg.mpr hx
  unfold roundHalfEven
  split_ifs <;> omega

theorem roundHalfEven_le_int {x : ℚ} {n : ℤ} (hx : x ≤ (n : ℚ)) :
    roundHalfEven x ≤ n := by
  have hf : ⌊x⌋ ≤ n := by
    have := Int.floor_le_floor hx
    simpa using this
  have hfl : (⌊x⌋ : ℚ) ≤ x := Int.floor_le x
  unfold roundHalfEven
  split_ifs with h1 h2 h3
  · exact hf
  · have hne : ⌊x⌋ ≠ n := by
      intro h
      rw [h] at h2
      linarith
    omega
  · exact hf
  · have hne : ⌊x⌋ ≠ n := by
      intro h
      have hgt : (1:ℚ)/2 ≤ x - (⌊x⌋ : ℚ) := by linarith
      rw [h] at hgt
      linarith
    omega

theorem round4_nonneg {x : ℚ} (hx : 0 ≤ x) : 0 ≤ round4 x := by
  unfold round4
  have h : (0:ℤ) ≤ roundHalfEven (x * 10000) :=
    roundHalfEven_nonneg (by positivity)
  have h2 : (0:ℚ) ≤ (roundHalfEven (x * 10000) : ℚ) := by exact_mod_cast h
  positivity

theorem round4_le_of_le {x : ℚ} {n : ℤ} (hx : x * 10000 ≤ (n : ℚ)) :
    round4 x ≤ (n : ℚ) / 10000 := by
  unfold round4
  have h := roundHalfEven_le_int hx
  have h2 : (roundHalfEven (x * 10000) : ℚ) ≤ (n : ℚ) := by exact_mod_cast h
  have hpos : (0:ℚ) < 10000 := by norm_num
  exact (div_le_div_right hpos).mpr h2

/-! ## Fold min/max and normalization bounds -/

theorem foldl_min_le_init (l : List ℚ) (a : ℚ) : l.foldl min a ≤ a := by
  induction l generalizing a with
  | nil => exact le_refl a
  | cons x xs ih =>
    simp only [List.foldl_cons]
    exact (ih (min a x)).trans (min_le_left a x)

theorem foldl_min_le_mem (l : List ℚ) (a y : ℚ) (hy : y ∈ l) : l.foldl min a ≤ y := by
  induction l generalizing a with
  | nil => cases hy
  | cons x xs ih =>
    simp only [List.foldl_cons]
    rcases List.mem_cons.mp hy with h | h
    · subst h
      exact (foldl_min_le_init xs (min a y)).trans (min_le_right a y)
    · exact ih (min a x) h

theorem le_foldl_max_init (l : List ℚ) (a : ℚ) : a ≤ l.foldl max a := by
  induction l generalizing a with
  | nil => exact le_refl a
  | cons x xs ih =>
    simp only [List.foldl_cons]
    exact (le_max_left a x).trans (ih (max a x))

theorem mem_le_foldl_max (l : List ℚ) (a y : ℚ) (hy : y ∈ l) : y ≤ l.foldl max a := by
  induction l generalizing a with
  | nil => cases hy
  | cons x xs ih =>
    simp only [List.foldl_cons]
    rcases List.mem_cons.mp hy with h | h
    · subst h
      exact (le_max_right a y).trans (le_foldl_max_init xs (max a y))
    · exact ih (max a x) h

theorem normalize_llm_score_bounds (v : Option ℚ) :
    0 ≤ normalize_llm_score v ∧ normalize_llm_score v ≤ 1 := by
  unfold normalize_llm_score
  match v with
  | none => norm_num
  | some x =>
    constructor
    · exact le_max_left 0 _
    · exact max_le (by norm_num) (min_le_left 1 _)

theorem minmax_normalize_bounds (values : List (Option ℚ)) (invert : Bool) :
    ∀ x ∈ minmax_normalize values invert, 0 ≤ x ∧ x ≤ 1 := by
  intro x hx
  unfold minmax_normalize at hx
  rcases hclean : values.filterMap id with _ | ⟨c, cs⟩
  · rw [hclean] at hx
    simp only [List.mem_map] at hx
    obtain ⟨v, _, hv⟩ := hx
    subst hv
    norm_num
  · rw [hclean] at hx
    simp only [List.mem_map] at hx
    obtain ⟨v, hvmem, hv⟩ := hx
    subst hv
    match v with
    | none => norm_num
    | some xv =>
      simp only
      by_cases hspan : cs.foldl max c - cs.foldl min c = 0
      · rw [if_pos hspan]
        norm_num
      · rw [if_neg hspan]
        have hxv_clean : xv ∈ values.filterMap id := by
          rw [List.mem_filterMap]
          exact ⟨some xv, hvmem, rfl⟩
        rw [hclean] at hxv_clean
        have hmin : cs.foldl min c ≤ xv := by
          rcases List.mem_cons.mp hxv_clean with h | h
          · subst h
            exact foldl_min_le_init cs xv
          · exact foldl_min_le_mem cs c xv h
        have hmax : xv ≤ cs.foldl max c := by
          rcases List.mem_cons.mp hxv_clean with h | h
          · subst h
            exact le_foldl_max_init cs xv
          · exact mem_le_foldl_max cs c xv h
        have hminmax : cs.foldl min c ≤ cs.foldl max c := le_trans hmin hmax
        have hspanpos : 0 < cs.foldl max c - cs.foldl min c := by
          rcases lt_or_eq_of_le (sub_nonneg.mpr hminmax) with h | h
          · exact h
          · exact absurd h.symm hspan
        have hnorm0 : 0 ≤ (xv - cs.foldl min c) / (cs.foldl max c - cs.foldl min c) :=
          div_nonneg (by linarith) (le_of_lt hspanpos)
        have hnorm1 : (xv - cs.foldl min c) / (cs.foldl max c - cs.foldl min c) ≤ 1 := by
          rw [div_le_one hspanpos]
          linarith
        cases invert
        · simp only [Bool.false_eq_true, if_false]
          exact ⟨hnorm0, hnorm1⟩
        · simp only [if_true]
          constructor <;> linarith

theorem normalizedValues_bounds (p : PersonaConfig) (cands : List CandidateCompany)
    (a : String) : ∀ x ∈ normalizedValues p cands a, 0 ≤ x ∧ x ≤ 1 := by
  intro x hx
  unfold normalizedValues at hx
  rcases halist : alistGet ATTRIBUTE_SOURCE_MAP a with _ | ⟨st, sf⟩
  · rw [halist] at hx
    simp only [List.mem_map] at hx
    obtain ⟨v, _, hv⟩ := hx
    subst hv
    norm_num
  · rw [halist] at hx
    simp only at hx
    by_cases hfcf : (a == "free_cash_flow_positive") = true
    · rw [if_pos hfcf] at hx
      simp only [List.mem_map] at hx
      obtain ⟨v, _, hv⟩ := hx
      subst hv
      match v with
      | none => norm_num
      | some xv =>
        simp only
        split_ifs <;> norm_num
    · rw [if_neg hfcf] at hx
      by_cases hllm : (st == "llm") = true
      · rw [if_pos hllm] at hx
        by_cases hinv : p.inverted_attributes.contains a = true
        · rw [if_pos hinv] at hx
          simp only [List.mem_map] at hx
          obtain ⟨v, _, hv⟩ := hx
          subst hv
          have := normalize_llm_score_bounds v
          constructor <;> linarith [this.1, this.2]
        · rw [if_neg hinv] at hx
          simp only [List.mem_map] at hx
          obtain ⟨v, _, hv⟩ := hx
          subst hv
          exact normalize_llm_score_bounds v
      · rw [if_neg hllm] at hx
        by_cases hfin : (st == "financial" || st == "growth") = true
        · rw [if_pos hfin] at hx
          exact minmax_normalize_bounds _ _ x hx
        · rw [if_neg hfin] at hx
          by_cases hgr : (st == "graph") = true
          · rw [if_pos hgr] at hx
            exact minmax_normalize_bounds _ _ x hx
          · rw [if_neg hgr] at hx
            simp only [List.mem_map] at hx
            obtain ⟨v, _, hv⟩ := hx
            subst hv
            norm_num

theorem normalizedValues_getD_bounds (p : PersonaConfig) (cands : List CandidateCompany)
    (a : String) (i : Nat) :
    0 ≤ (normalizedValues p cands a).getD i (1/2)
    ∧ (normalizedValues p cands a).getD i (1/2) ≤ 1 := by
  rcases hget : (normalizedValues p cands a).get? i with _ | ⟨x⟩
  · rw [List.getD, hget]
    norm_num
  · rw [List.getD, hget]
    have hx : x ∈ normalizedValues p cands a := List.get?_mem hget
    exact normalizedValues_bounds p cands a x hx

/-! ## Structural lemmas about `scoreList`, the sort and `assignRanks` -/

theorem scoreList_length (p : PersonaConfig) (all : List CandidateCompany) :
    ∀ (i : Nat) (cs : List CandidateCompany), (scoreList p all i cs).length = cs.length := by
  intro i cs
  induction cs generalizing i with
  | nil => rfl
  | cons c rest ih => simp [scoreList, ih]

theorem scoreList_map_cid (p : PersonaConfig) (all : List CandidateCompany) :
    ∀ (i : Nat) (cs : List CandidateCompany),
      (scoreList p all i cs).map (fun r => r.company_id)
        = cs.map (fun c => c.company_id) := by
  intro i cs
  induction cs generalizing i with
  | nil => rfl
  | cons c rest ih => simp [scoreList, scoreCandidate, ih]

theorem mem_scoreList {p : PersonaConfig} {all : List CandidateCompany} :
    ∀ {i : Nat} {cs : List CandidateCompany} {r : RankedResult},
      r ∈ scoreList p all i cs → ∃ j c, c ∈ cs ∧ r = scoreCandidate p all j c := by
  intro i cs
  induction cs generalizing i with
  | nil => intro r hr; cases hr
  | cons c rest ih =>
    intro r hr
    rcases List.mem_cons.mp hr with h | h
    · exact ⟨i, c, List.mem_cons_self c rest, h⟩
    · obtain ⟨j, c2, hc2, hr2⟩ := ih h
      exact ⟨j, c2, List.mem_cons_of_mem c hc2, hr2⟩

theorem assignRanks_length : ∀ (k : Nat) (l : List RankedResult),
    (assignRanks k l).length = l.length := by
  intro k l
  induction l generalizing k with
  | nil => rfl
  | cons r rest ih => simp [assignRanks, ih]

theorem assignRanks_map_cid : ∀ (k : Nat) (l : List RankedResult),
    (assignRanks k l).map (fun r => r.company_id) = l.map (fun r => r.company_id) := by
  intro k l
  induction l generalizing k with
  | nil => rfl
  | cons r rest ih => simp [assignRanks, ih]

theorem assignRanks_map_score : ∀ (k : Nat) (l : List RankedResult),
    (assignRanks k l).map (fun r => r.composite_score)
      = l.map (fun r => r.composite_score) := by
  intro k l
  induction l generalizing k with
  | nil => rfl
  | cons r rest ih => simp [assignRanks, ih]

theorem assignRanks_map_pair : ∀ (k : Nat) (l : List RankedResult),
    (assignRanks k l).map (fun r => (r.company_id, r.composite_score))
      = l.map (fun r => (r.company_id, r.composite_score)) := by
  intro k l
  induction l generalizing k with
  | nil => rfl
  | cons r rest ih => simp [assignRanks, ih]

theorem assignRanks_map_rank : ∀ (k : Nat) (l : List RankedResult),
    (assignRanks k l).map (fun r => r.rank) = List.range' (k + 1) l.length := by
  intro k l
  induction l generalizing k with
  | nil => rfl
  | cons r rest ih => simp [assignRanks, List.range', ih]

theorem mem_assignRanks : ∀ {k : Nat} {l : List RankedResult} {r : RankedResult},
    r ∈ assignRanks k l → ∃ s ∈ l, r.composite_score = s.composite_score := by
  intro k l
  induction l generalizing k with
  | nil => intro r hr; cases hr
  | cons x rest ih =>
    intro r hr
    rcases List.mem_cons.mp hr with h | h
    · exact ⟨x, List.mem_cons_self x rest, by rw [h]⟩
    · obtain ⟨s, hs, hsc⟩ := ih h
      exact ⟨s, List.mem_cons_of_mem x hs, hsc⟩

/-- Inserting into any list does not disturb the subsequence of entries
carrying a fixed composite score (the inserted element, if it has that
score, lands in front of them). -/
theorem filter_pair_orderedInsert (s : ℚ) (a : RankedResult) (l : List RankedResult) :
    ((List.orderedInsert rankRel a l).map
        (fun r => (r.company_id, r.composite_score))).filter (fun pr => pr.2 == s)
      = if a.composite_score == s
        then (a.company_id, a.composite_score) ::
          ((l.map (fun r => (r.company_id, r.composite_score))).filter (fun pr => pr.2 == s))
        else (l.map (fun r => (r.company_id, r.composite_score))).filter (fun pr => pr.2 == s) := by
  rw [List.orderedInsert_eq_take_drop]
  have hsplit : l = l.takeWhile (fun b => decide ¬ rankRel a b)
      ++ l.dropWhile (fun b => decide ¬ rankRel a b) :=
    (List.takeWhile_append_dropWhile (fun b => decide ¬ rankRel a b) l).symm
  by_cases hs : a.composite_score = s
  · have hpre : ((l.takeWhile (fun b => decide ¬ rankRel a b)).map
        (fun r => (r.company_id, r.composite_score))).filter (fun pr => pr.2 == s) = [] := by
      rw [List.filter_eq_nil_iff]
      intro pr hpr
      rw [List.mem_map] at hpr
      obtain ⟨b, hb, hbp⟩ := hpr
      have hbt := List.mem_takeWhile_imp hb
      simp only [decide_eq_true_eq] at hbt
      unfold rankRel at hbt
      push_neg at hbt
      subst hbp
      simp only [beq_iff_eq]
      intro hbs
      rw [hbs, hs] at hbt
      exact lt_irrefl s hbt
    conv_rhs => rw [hsplit]
    simp only [List.map_append, List.filter_append, List.map_cons, List.filter_cons, hpre,
      List.nil_append]
    try simp [hs]
  · have hf : (a.composite_score == s) = false := by
      simp [hs]
    conv_rhs => rw [hsplit]
    simp only [List.map_append, List.filter_append, List.map_cons, List.filter_cons, hf]
    simp

/-- Stability of the embedded stable sort: filtering the
(id, score) projection to one score value yields the input order. -/
theorem filter_pair_insertionSort (s : ℚ) (l : List RankedResult) :
    ((List.insertionSort rankRel l).map
        (fun r => (r.company_id, r.composite_score))).filter (fun pr => pr.2 == s)
      = (l.map (fun r => (r.company_id, r.composite_score))).filter (fun pr => pr.2 == s) := by
  induction l with
  | nil => rfl
  | cons x rest ih =>
    simp only [List.insertionSort]
    rw [filter_pair_orderedInsert]
    by_cases hs : x.composite_score = s
    · simp only [hs, beq_self_eq_true, if_true, List.map_cons, List.filter_cons]
      try simp [ih, hs]
    · have hf : (x.composite_score == s) = false := by simp [hs]
      simp only [hf, if_false, List.map_cons, List.filter_cons, ih]
      try simp [hf]

/-- Pointwise-equal maps agree (membership-aware). -/
theorem map_congr_mem {α β : Type} {f g : α → β} :
    ∀ {l : List α}, (∀ a ∈ l, f a = g a) → l.map f = l.map g := by
  intro l
  induction l with
  | nil => intro _; rfl
  | cons x xs ih =>
    intro h
    simp only [List.map_cons]
    rw [h x (List.mem_cons_self x xs), ih (fun a ha => h a (List.mem_cons_of_mem x ha))]

/-- The normalized column of a weighted attribute whose raw value is
absent, for a single-candidate list: the binary attribute defaults to 0,
everything else to the neutral 0.5. -/
theorem normalizedValues_singleton_absent (p : PersonaConfig) (c : CandidateCompany)
    (a : String) (h : extract_raw_value c a = none) :
    (normalizedValues p [c] a).getD 0 (1/2)
      = if a == "free_cash_flow_positive" then 0 else 1/2 := by
  unfold normalizedValues
  rcases halist : alistGet ATTRIBUTE_SOURCE_MAP a with _ | ⟨st, sf⟩
  · have hne : ¬ (a == "free_cash_flow_positive") = true := by
      intro he
      rw [beq_iff_eq] at he
      subst he
      revert halist
      decide
    simp [hne]
  · simp only [List.map_cons, List.map_nil]
    by_cases hfcf : (a == "free_cash_flow_positive") = true
    · rw [if_pos hfcf, if_pos hfcf, h]
      rfl
    · rw [if_neg hfcf, if_neg hfcf]
      by_cases hllm : (st == "llm") = true
      · rw [if_pos hllm]
        by_cases hinv : p.inverted_attributes.contains a = true
        · rw [if_pos hinv, h]
          norm_num [normalize_llm_score]
        · rw [if_neg hinv, h]
          rfl
      · rw [if_neg hllm]
        by_cases hfin : (st == "financial" || st == "growth") = true
        · rw [if_pos hfin, h]
          rfl
        · rw [if_neg hfin]
          by_cases hgr : (st == "graph") = true
          · rw [if_pos hgr, h]
            rfl
          · rw [if_neg hgr]
            rfl

section ConcreteEvaluation

attribute [local semireducible] Rat.add Rat.sub Rat.mul Rat.inv Rat.ofScientific

/-- C9: the five persona configurations are exactly value_investor,
pe_firm, growth_vc, strategic_acquirer and enterprise_buyer, and each
one's attribute weights sum to exactly 1 (the configurations are plain
constants of the model, defined once and never mutated). -/
theorem persona_weights_sum_to_one :
    (PERSONAS.map (fun p => p.1))
      = ["value_investor", "pe_firm", "growth_vc", "strategic_acquirer", "enterprise_buyer"]
    ∧ (value_investor.weights.map (fun aw => aw.2)).sum = 1
    ∧ (pe_firm.weights.map (fun aw => aw.2)).sum = 1
    ∧ (growth_vc.weights.map (fun aw => aw.2)).sum = 1
    ∧ (strategic_acquirer.weights.map (fun aw => aw.2)).sum = 1
    ∧ (enterprise_buyer.weights.map (fun aw => aw.2)).sum = 1 := by
  refine ⟨rfl, ?_, ?_, ?_, ?_, ?_⟩ <;> decide

/-- C10: `rank_candidates` on the empty list returns the empty list, and
in general returns one result per input candidate with exactly the input
multiset of company identifiers. -/
theorem rank_candidates_totality :
    rank_candidates [] value_investor "" = []
    ∧ (∀ (p : PersonaConfig) (acq : String), rank_candidates [] p acq = [])
    ∧ ∀ (cs : List CandidateCompany) (p : PersonaConfig) (acq : String),
        (rank_candidates cs p acq).length = cs.length
        ∧ ((rank_candidates cs p acq).map (fun r => r.company_id) : Multiset String)
          = ((cs.map (fun c => c.company_id)) : Multiset String) := by
  refine ⟨rfl, fun p acq => rfl, fun cs p acq => ?_⟩
  unfold rank_candidates
  by_cases hcs : cs.isEmpty
  · have he : cs = [] := List.isEmpty_iff.mp hcs
    subst he
    simp
  · rw [if_neg hcs]
    have hperm : (List.insertionSort rankRel (scoreList p cs 0 cs)).Perm
        (scoreList p cs 0 cs) := List.perm_insertionSort _ _
    constructor
    · rw [assignRanks_length, hperm.length_eq, scoreList_length]
    · rw [assignRanks_map_cid]
      have h2 := hperm.map (fun r => r.company_id)
      have h3 := scoreList_map_cid p cs 0 cs
      calc ((List.insertionSort rankRel (scoreList p cs 0 cs)).map
              (fun r => r.company_id) : Multiset String)
          = ((scoreList p cs 0 cs).map (fun r => r.company_id) : Multiset String) :=
            Multiset.coe_eq_coe.mpr h2
        _ = ((cs.map (fun c => c.company_id)) : Multiset String) := by rw [h3]

/-- C2 (amended): the boost keeps the maximum of the applicable
contributions — COMPETES_WITH contributes 0.15 × competition_strength
when the strength is nonzero and a flat 0.10 otherwise, DISRUPTS
contributes a flat 0.10, and a TARGETS_SAME_SEGMENT edge yields 0.05 only
when neither applies; shared-theme-only candidates get no boost.  Direct
competition does NOT always dominate: a DISRUPTS edge wins whenever
0.15 × strength < 0.10. -/
theorem graph_boost_keeps_maximum (cand : CandidateCompany)
    (hcs : 0 ≤ cand.competition_strength) :
    graph_boost cand =
      if hasEdgeType cand "COMPETES_WITH" || hasEdgeType cand "DISRUPTS" then
        max (if hasEdgeType cand "COMPETES_WITH" then
               (if cand.competition_strength ≠ 0
                then 15/100 * cand.competition_strength else 1/10)
             else 0)
            (if hasEdgeType cand "DISRUPTS" then (1/10 : ℚ) else 0)
      else if hasEdgeType cand "TARGETS_SAME_SEGMENT" then 1/20 else 0 := by
  unfold graph_boost
  cases hC : hasEdgeType cand "COMPETES_WITH" with
  | false =>
    cases hD : hasEdgeType cand "DISRUPTS" with
    | false =>
      simp only [hC, hD, Bool.false_eq_true, if_false, Bool.or_self]
      cases hS : hasEdgeType cand "TARGETS_SAME_SEGMENT" with
      | false => simp [hS]
      | true => simp [hS]
    | true =>
      have hb2 : max (0:ℚ) (1/10) = 1/10 := by norm_num
      simp only [hC, hD, Bool.false_eq_true, if_false, if_true, hb2, Bool.false_or]
      have : ¬ (hasEdgeType cand "TARGETS_SAME_SEGMENT" = true ∧ (1:ℚ)/10 = 0) := by
        rintro ⟨_, habs⟩
        norm_num at habs
      rw [if_neg this]
      try norm_num
  | true =>
    by_cases hz : cand.competition_strength = 0
    · have hb1 : graph_boost cand = _ := rfl
      simp only [hC, if_true, hz, ne_eq, not_true_eq_false, if_false, Bool.true_or]
      cases hD : hasEdgeType cand "DISRUPTS" with
      | false =>
        simp only [Bool.false_eq_true, if_false]
        have hcond : ¬ (hasEdgeType cand "TARGETS_SAME_SEGMENT" = true ∧ (1:ℚ)/10 = 0) := by
          rintro ⟨_, habs⟩
          norm_num at habs
        first
          | exact (max_eq_left (by norm_num)).symm
          | (rw [if_neg hcond]; exact (max_eq_left (by norm_num)).symm)
          | norm_num [max_def]
      | true =>
        simp only [if_true]
        have hcond : ¬ (hasEdgeType cand "TARGETS_SAME_SEGMENT" = true ∧ (1:ℚ)/10 = 0) := by
          rintro ⟨_, habs⟩
          norm_num at habs
        first
          | rfl
          | norm_num [max_def]
          | (rw [if_neg hcond]; norm_num [max_def])
    · have hpos : 0 < cand.competition_strength := lt_of_le_of_ne hcs (Ne.symm hz)
      have hmax0 : max (0:ℚ) (15/100 * cand.competition_strength)
          = 15/100 * cand.competition_strength := max_eq_right (by positivity)
      have hb1pos : 0 < 15/100 * cand.competition_strength := by positivity
      simp only [hC, if_true, hz, ne_eq, not_false_eq_true, hmax0, Bool.true_or]
      cases hD : hasEdgeType cand "DISRUPTS" with
      | false =>
        simp only [Bool.false_eq_true, if_false]
        have : ¬ (hasEdgeType cand "TARGETS_SAME_SEGMENT" = true
            ∧ 15/100 * cand.competition_strength = 0) := by
          rintro ⟨_, habs⟩
          rw [habs] at hb1pos
          exact lt_irrefl 0 hb1pos
        rw [if_neg this]
        exact (max_eq_left (le_of_lt hb1pos)).symm
      | true =>
        simp only [if_true]
        have hub : (0:ℚ) < max (15/100 * cand.competition_strength) (1/10) :=
          lt_max_of_lt_right (by norm_num)
        have : ¬ (hasEdgeType cand "TARGETS_SAME_SEGMENT" = true
            ∧ max (15/100 * cand.competition_strength) ((1:ℚ)/10) = 0) := by
          rintro ⟨_, habs⟩
          rw [habs] at hub
          exact lt_irrefl 0 hub
        rw [if_neg this]

/-- Witness for C2's amended theorem at the concrete candidate carrying a
half-strength COMPETES_WITH edge and a DISRUPTS edge. -/
theorem graph_boost_keeps_maximum_witness :
    0 ≤ compDisCandidate.competition_strength
    ∧ graph_boost compDisCandidate =
      if hasEdgeType compDisCandidate "COMPETES_WITH" || hasEdgeType compDisCandidate "DISRUPTS" then
        max (if hasEdgeType compDisCandidate "COMPETES_WITH" then
               (if compDisCandidate.competition_strength ≠ 0
                then 15/100 * compDisCandidate.competition_strength else 1/10)
             else 0)
            (if hasEdgeType compDisCandidate "DISRUPTS" then (1/10 : ℚ) else 0)
      else if hasEdgeType compDisCandidate "TARGETS_SAME_SEGMENT" then 1/20 else 0 :=
  ⟨by decide, graph_boost_keeps_maximum compDisCandidate (by decide)⟩

/-- Counterexample to C2 as stated: on a candidate with a half-strength
COMPETES_WITH edge and a DISRUPTS edge the code's boost is 0.10, while
the claimed competition-dominates ladder gives 0.15 × 0.5 = 0.075. -/
theorem graph_boost_competition_not_dominant :
    hasEdgeType compDisCandidate "COMPETES_WITH" = true
    ∧ compDisCandidate.competition_strength = 1/2
    ∧ graph_boost compDisCandidate = 1/10
    ∧ boost_claim_ladder compDisCandidate = 15/100 * (1/2)
    ∧ graph_boost compDisCandidate ≠ boost_claim_ladder compDisCandidate := by
  refine ⟨by decide, by decide, by decide, by decide, by decide⟩

/-- C3 (amended): a candidate, ranked alone, whose raw values are absent
for all of the persona's weighted attributes and that carries no graph
edges scores exactly the rounded sum of weight/2 over the non-binary
weighted attributes (the binary `free_cash_flow_positive` contributes 0
when absent, not 0.5). -/
theorem rank_candidates_absent_value_baseline (p : PersonaConfig) (c : CandidateCompany)
    (hra : ∀ aw ∈ p.weights, extract_raw_value c aw.1 = none)
    (hedges : c.graph_edges = []) :
    (rank_candidates [c] p "").map (fun r => r.composite_score)
      = [round4 ((p.weights.map (fun aw =>
          if aw.1 == "free_cash_flow_positive" then 0 else aw.2 / 2)).sum)] := by
  have hboost : graph_boost c = 0 := by
    unfold graph_boost hasEdgeType
    rw [hedges]
    simp
  have hrk : rank_candidates [c] p ""
      = assignRanks 0 [scoreCandidate p [c] 0 c] := rfl
  rw [hrk]
  simp only [assignRanks, List.map_cons, List.map_nil]
  unfold scoreCandidate
  simp only [List.map_map, hboost, add_zero]
  congr 1
  congr 1
  have hmaps : p.weights.map ((fun p_1 => p_1.2) ∘ fun aw =>
      (aw.1, (normalizedValues p [c] aw.1).getD 0 (1/2) * aw.2))
      = p.weights.map (fun aw =>
          if aw.1 == "free_cash_flow_positive" then 0 else aw.2 / 2) := by
    apply map_congr_mem
    intro aw haw
    simp only [Function.comp]
    rw [normalizedValues_singleton_absent p c aw.1 (hra aw haw)]
    by_cases hfcf : (aw.1 == "free_cash_flow_positive") = true
    · rw [if_pos hfcf, if_pos hfcf]
      ring
    · rw [if_neg hfcf, if_neg hfcf]
      ring
  rw [hmaps]

/-- Witness for C3's amended theorem: the blank candidate under
value_investor (whose weight map includes the binary attribute) scores
0.4, not 0.5. -/
theorem rank_candidates_absent_value_baseline_witness :
    (∀ aw ∈ value_investor.weights, extract_raw_value blankCandidate aw.1 = none)
    ∧ blankCandidate.graph_edges = []
    ∧ (rank_candidates [blankCandidate] value_investor "").map (fun r => r.composite_score)
      = [round4 ((value_investor.weights.map (fun aw =>
          if aw.1 == "free_cash_flow_positive" then 0 else aw.2 / 2)).sum)] :=
  ⟨by decide, by decide,
   rank_candidates_absent_value_baseline value_investor blankCandidate
     (by decide) (by decide)⟩

/-- Counterexample to C3 as stated: under value_investor the all-absent,
edge-free candidate receives composite 0.4, not the claimed neutral 0.5
(0.5 × Σ weights); the binary free-cash-flow attribute defaults to 0. -/
theorem absent_value_baseline_not_half :
    (value_investor.weights.all (fun aw => (extract_raw_value blankCandidate aw.1).isNone)) = true
    ∧ blankCandidate.graph_edges = []
    ∧ ((value_investor.weights.map (fun aw => aw.2)).sum / 2 = 1/2)
    ∧ (rank_candidates [blankCandidate] value_investor "").map (fun r => r.composite_score)
      = [2/5]
    ∧ ((2:ℚ)/5) ≠ 1/2 := by
  refine ⟨by decide, by decide, by decide, by decide, by decide⟩

end ConcreteEvaluation

/-! ## C5: the shared-theme-only filter of `get_competitors_to` -/

theorem enrich_preserves_edges :
    ∀ (counts : List (String × ℚ)) (m : List (String × CandidateCompany))
      (pa : String × CandidateCompany),
      pa ∈ enrichPartnershipCounts counts m →
      ∃ pb ∈ m, pb.2.graph_edges = pa.2.graph_edges := by
  intro counts
  induction counts with
  | nil =>
    intro m pa hpa
    exact ⟨pa, hpa, rfl⟩
  | cons row rest ih =>
    intro m pa hpa
    have hstep : enrichPartnershipCounts (row :: rest) m
        = enrichPartnershipCounts rest (m.map (fun p =>
            if p.1 == row.1 then (p.1, { p.2 with partnership_count := row.2 }) else p)) := rfl
    rw [hstep] at hpa
    obtain ⟨pb, hpb, heq⟩ := ih _ pa hpa
    rw [List.mem_map] at hpb
    obtain ⟨pc, hpc, hupd⟩ := hpb
    refine ⟨pc, hpc, ?_⟩
    rw [← heq, ← hupd]
    by_cases hid : (pc.1 == row.1) = true
    · rw [if_pos hid]
    · rw [if_neg hid]

/-- C5: every candidate returned by `get_competitors_to` carries at least
one COMPETES_WITH, DISRUPTS or TARGETS_SAME_SEGMENT edge — no candidate
whose edges are only shared-theme survives the filter, whatever the graph
store returned for the four strategies. -/
theorem get_competitors_to_no_theme_only (q : CompetitorQueryResults) :
    ∀ c ∈ get_competitors_to q, ∃ e ∈ c.graph_edges,
      e.etype = "COMPETES_WITH" ∨ e.etype = "DISRUPTS"
        ∨ e.etype = "TARGETS_SAME_SEGMENT" := by
  intro c hc
  have hdef : get_competitors_to q
      = (enrichPartnershipCounts q.partner_counts
          ((disruptsStep q.disrupts (themeStep q.shared_theme
            (segmentStep q.same_segment (competesStep q.competes [])))).filter
              (fun p => hasStrongEdge p.2))).map (fun p => p.2) := rfl
  rw [hdef] at hc
  rw [List.mem_map] at hc
  obtain ⟨pa, hpa, hpc⟩ := hc
  obtain ⟨pb, hpb, hedges⟩ := enrich_preserves_edges _ _ pa hpa
  have hmemf := List.mem_filter.mp hpb
  have hstrong := hmemf.2
  unfold hasStrongEdge at hstrong
  rw [List.any_eq_true] at hstrong
  obtain ⟨e, he, hety⟩ := hstrong
  refine ⟨e, ?_, ?_⟩
  · rw [← hpc, ← hedges]
    exact he
  · simp only [Bool.or_eq_true, beq_iff_eq] at hety
    rcases hety with (h | h) | h
    · exact Or.inl h
    · exact Or.inr (Or.inl h)
    · exact Or.inr (Or.inr h)

section CompetitorWitness

attribute [local semireducible] Rat.add Rat.sub Rat.mul Rat.inv Rat.ofScientific

/-- Witness for C5 on concrete driver results: the direct competitor is
returned (the theme-only company is dropped) and carries a strong edge. -/
theorem get_competitors_to_no_theme_only_witness :
    get_competitors_to sampleCompetitorResults = [sampleCompetitorOutput]
    ∧ sampleCompetitorOutput ∈ get_competitors_to sampleCompetitorResults
    ∧ ∃ e ∈ sampleCompetitorOutput.graph_edges,
        e.etype = "COMPETES_WITH" ∨ e.etype = "DISRUPTS"
          ∨ e.etype = "TARGETS_SAME_SEGMENT" :=
  ⟨by decide, by decide,
   get_competitors_to_no_theme_only sampleCompetitorResults sampleCompetitorOutput (by decide)⟩

end CompetitorWitness

/-! ## C1: composite-score range -/

theorem boostAfterComp_bounds (cand : CandidateCompany)
    (h0 : 0 ≤ cand.competition_strength) (h1 : cand.competition_strength ≤ 1) :
    0 ≤ boostAfterComp cand ∧ boostAfterComp cand ≤ 3/20 := by
  unfold boostAfterComp
  split_ifs with hA hB
  · constructor
    · exact le_max_left 0 _
    · refine max_le (by norm_num) ?_
      nlinarith
  · norm_num
  · norm_num

theorem boostAfterDisrupt_bounds (cand : CandidateCompany)
    (h0 : 0 ≤ cand.competition_strength) (h1 : cand.competition_strength ≤ 1) :
    0 ≤ boostAfterDisrupt cand ∧ boostAfterDisrupt cand ≤ 3/20 := by
  have hb := boostAfterComp_bounds cand h0 h1
  unfold boostAfterDisrupt
  split_ifs with hA
  · constructor
    · exact le_trans hb.1 (le_max_left _ _)
    · exact max_le hb.2 (by norm_num)
  · exact hb

theorem graph_boost_eq_stepped (cand : CandidateCompany) :
    graph_boost cand =
      if hasEdgeType cand "TARGETS_SAME_SEGMENT" ∧ boostAfterDisrupt cand = 0
      then 1/20 else boostAfterDisrupt cand := rfl

theorem graph_boost_bounds (cand : CandidateCompany)
    (h0 : 0 ≤ cand.competition_strength) (h1 : cand.competition_strength ≤ 1) :
    0 ≤ graph_boost cand ∧ graph_boost cand ≤ 3/20 := by
  have hb := boostAfterDisrupt_bounds cand h0 h1
  rw [graph_boost_eq_stepped]
  split_ifs with hA
  · norm_num
  · exact hb

theorem weighted_sum_bounds (ws : List (String × ℚ)) (f : String → ℚ)
    (hw : ∀ aw ∈ ws, 0 ≤ aw.2) (hf : ∀ a, 0 ≤ f a ∧ f a ≤ 1) :
    0 ≤ (ws.map (fun aw => f aw.1 * aw.2)).sum
    ∧ (ws.map (fun aw => f aw.1 * aw.2)).sum ≤ (ws.map (fun aw => aw.2)).sum := by
  induction ws with
  | nil => norm_num
  | cons aw rest ih =>
    have hw0 := hw aw (List.mem_cons_self aw rest)
    have hrest := ih (fun x hx => hw x (List.mem_cons_of_mem aw hx))
    have hf0 := (hf aw.1).1
    have hf1 := (hf aw.1).2
    simp only [List.map_cons, List.sum_cons]
    constructor
    · have : 0 ≤ f aw.1 * aw.2 := mul_nonneg hf0 hw0
      linarith [hrest.1]
    · have : f aw.1 * aw.2 ≤ aw.2 := by nlinarith
      linarith [hrest.2]

theorem scoreCandidate_composite (p : PersonaConfig) (cands : List CandidateCompany)
    (j : Nat) (c : CandidateCompany) :
    (scoreCandidate p cands j c).composite_score
      = round4 ((p.weights.map (fun aw =>
          (normalizedValues p cands aw.1).getD j (1/2) * aw.2)).sum + graph_boost c) := by
  unfold scoreCandidate
  simp only [List.map_map]
  rfl

/-- C1: under weights that are nonnegative and sum to 1 and candidate
competition/edge strengths inside [0,1], every composite score produced
by `rank_candidates` lies in [0, 1.15] — the weighted sum contributes at
most 1 and the graph boost at most 0.15, and the boost is additive on
top of the unit weight budget. -/
theorem rank_candidates_composite_score_bounds
    (candidates : List CandidateCompany) (persona : PersonaConfig) (acq : String)
    (hw : ∀ aw ∈ persona.weights, 0 ≤ aw.2)
    (hsum : (persona.weights.map (fun aw => aw.2)).sum = 1)
    (hcs : ∀ c ∈ candidates, 0 ≤ c.competition_strength ∧ c.competition_strength ≤ 1)
    (hstr : ∀ c ∈ candidates, ∀ e ∈ c.graph_edges,
      0 ≤ e.strength.getD 0 ∧ e.strength.getD 0 ≤ 1) :
    ∀ r ∈ rank_candidates candidates persona acq,
      0 ≤ r.composite_score ∧ r.composite_score ≤ 23/20 := by
  intro r hr
  unfold rank_candidates at hr
  by_cases hemp : candidates.isEmpty
  · rw [if_pos hemp] at hr
    cases hr
  · rw [if_neg hemp] at hr
    have hr2 : r ∈ assignRanks 0
        (List.insertionSort rankRel (scoreList persona candidates 0 candidates)) := hr
    obtain ⟨s, hs, hscore⟩ := mem_assignRanks hr2
    have hs2 : s ∈ scoreList persona candidates 0 candidates :=
      (List.perm_insertionSort rankRel _).mem_iff.mp hs
    obtain ⟨j, c, hcmem, hsc⟩ := mem_scoreList hs2
    rw [hscore, hsc, scoreCandidate_composite]
    have hb := graph_boost_bounds c (hcs c hcmem).1 (hcs c hcmem).2
    have hws := weighted_sum_bounds persona.weights
        (fun a => (normalizedValues persona candidates a).getD j (1/2)) hw
        (fun a => normalizedValues_getD_bounds persona candidates a j)
    have hsum1 : (persona.weights.map (fun aw =>
        (normalizedValues persona candidates aw.1).getD j (1/2) * aw.2)).sum ≤ 1 := by
      calc (persona.weights.map (fun aw =>
              (normalizedValues persona candidates aw.1).getD j (1/2) * aw.2)).sum
          ≤ (persona.weights.map (fun aw => aw.2)).sum := hws.2
        _ = 1 := hsum
    constructor
    · exact round4_nonneg (by linarith [hws.1, hb.1])
    · have hle : ((persona.weights.map (fun aw =>
          (normalizedValues persona candidates aw.1).getD j (1/2) * aw.2)).sum
          + graph_boost c) * 10000 ≤ ((11500 : ℤ) : ℚ) := by
        push_cast
        nlinarith [hb.2]
      calc round4 ((persona.weights.map (fun aw =>
              (normalizedValues persona candidates aw.1).getD j (1/2) * aw.2)).sum
              + graph_boost c)
          ≤ ((11500 : ℤ) : ℚ) / 10000 := round4_le_of_le hle
        _ = 23/20 := by norm_num

/-! ## C4: sortedness, dense ranks, stability -/

theorem pairwise_score_assignRanks {R : ℚ → ℚ → Prop} :
    ∀ (k : Nat) (l : List RankedResult),
      List.Pairwise (fun a b => R a.composite_score b.composite_score) l →
      List.Pairwise (fun a b => R a.composite_score b.composite_score) (assignRanks k l) := by
  intro k l
  induction l generalizing k with
  | nil => intro _; exact List.Pairwise.nil
  | cons x rest ih =>
    intro hp
    rw [List.pairwise_cons] at hp
    refine List.Pairwise.cons ?_ (ih (k + 1) hp.2)
    intro y hy
    obtain ⟨s, hsmem, hssc⟩ := mem_assignRanks hy
    have := hp.1 s hsmem
    simpa [hssc] using this

section ConcreteWitnesses

attribute [local semireducible] Rat.add Rat.sub Rat.mul Rat.inv Rat.ofScientific

/-- Witness for C1 at a concrete one-candidate list under value_investor. -/
theorem rank_candidates_composite_score_bounds_witness :
    (∀ aw ∈ value_investor.weights, 0 ≤ aw.2)
    ∧ (value_investor.weights.map (fun aw => aw.2)).sum = 1
    ∧ (∀ c ∈ [compDisCandidate], 0 ≤ c.competition_strength ∧ c.competition_strength ≤ 1)
    ∧ (∀ c ∈ [compDisCandidate], ∀ e ∈ c.graph_edges,
        0 ≤ e.strength.getD 0 ∧ e.strength.getD 0 ≤ 1)
    ∧ ∀ r ∈ rank_candidates [compDisCandidate] value_investor "",
        0 ≤ r.composite_score ∧ r.composite_score ≤ 23/20 :=
  ⟨by decide, by decide, by decide, by decide,
   rank_candidates_composite_score_bounds [compDisCandidate] value_investor ""
     (by decide) (by decide) (by decide) (by decide)⟩

/-- C4: for a non-empty candidate list the ranked output is non-increasing
in composite score, carries the dense ranks 1..n, and ties keep the
input (retrieval) order: filtering the (id, score) projection to any one
score value returns exactly the pre-sort order. -/
theorem rank_candidates_sorted_dense_stable (candidates : List CandidateCompany)
    (persona : PersonaConfig) (acq : String) (hne : candidates ≠ []) :
    List.Pairwise (fun a b : RankedResult => b.composite_score ≤ a.composite_score)
        (rank_candidates candidates persona acq)
    ∧ (rank_candidates candidates persona acq).map (fun r => r.rank)
        = List.range' 1 candidates.length
    ∧ ∀ s : ℚ,
        ((rank_candidates candidates persona acq).map
            (fun r => (r.company_id, r.composite_score))).filter (fun pr => pr.2 == s)
          = ((scoreList persona candidates 0 candidates).map
              (fun r => (r.company_id, r.composite_score))).filter (fun pr => pr.2 == s) := by
  have hemp : ¬ candidates.isEmpty = true := by
    intro h
    exact hne (List.isEmpty_iff.mp h)
  have hrw : rank_candidates candidates persona acq
      = assignRanks 0 (List.insertionSort rankRel (scoreList persona candidates 0 candidates)) := by
    unfold rank_candidates
    rw [if_neg hemp]
  refine ⟨?_, ?_, ?_⟩
  · rw [hrw]
    have hsorted : List.Pairwise rankRel
        (List.insertionSort rankRel (scoreList persona candidates 0 candidates)) :=
      List.sorted_insertionSort rankRel _
    exact @pairwise_score_assignRanks (fun x y => y ≤ x) 0 _ hsorted
  · rw [hrw, assignRanks_map_rank]
    rw [(List.perm_insertionSort rankRel _).length_eq, scoreList_length]
  · intro s
    rw [hrw, assignRanks_map_pair, filter_pair_insertionSort]

/-- Witness for C4 at a concrete two-candidate list. -/
theorem rank_candidates_sorted_dense_stable_witness :
    ([blankCandidate, compDisCandidate] : List CandidateCompany) ≠ []
    ∧ List.Pairwise (fun a b : RankedResult => b.composite_score ≤ a.composite_score)
        (rank_candidates [blankCandidate, compDisCandidate] value_investor "")
    ∧ (rank_candidates [blankCandidate, compDisCandidate] value_investor "").map
        (fun r => r.rank) = List.range' 1 2
    ∧ ((rank_candidates [blankCandidate, compDisCandidate] value_investor "").map
          (fun r => (r.company_id, r.composite_score))).filter (fun pr => pr.2 == (2:ℚ)/5)
        = ((scoreList value_investor [blankCandidate, compDisCandidate] 0
              [blankCandidate, compDisCandidate]).map
            (fun r => (r.company_id, r.composite_score))).filter (fun pr => pr.2 == (2:ℚ)/5) := by
  have h := rank_candidates_sorted_dense_stable [blankCandidate, compDisCandidate]
    value_investor "" (by decide)
  exact ⟨by decide, h.1, h.2.1, h.2.2 ((2:ℚ)/5)⟩

end ConcreteWitnesses

/-! ## C6: acquisition queries always rank with strategic_acquirer -/

/-- C6: whenever the parsed intent is acquisition_target, `search` ranks
the retrieved acquisition candidates with the strategic_acquirer persona
configuration and reports persona "strategic_acquirer", regardless of the
caller-supplied persona and of any persona detected in the query. -/
theorem search_acquisition_forces_strategic_acquirer
    (store : GraphStore) (query : String) (personaArg : String)
    (hq : (parse_query query).query_type = "acquisition_target") :
    (search store query personaArg).persona = "strategic_acquirer"
    ∧ (search store query personaArg).persona_display = "Strategic Acquirer"
    ∧ (search store query personaArg).results
        = rank_candidates
            (store.acquisitionTargets (parse_query query).acquirer
              (parse_query query).target_company)
            strategic_acquirer (parse_query query).acquirer := by
  have h1 : ((parse_query query).query_type == "competitors_to") = false := by
    rw [hq]; rfl
  have h2 : ((parse_query query).query_type == "compare") = false := by
    rw [hq]; rfl
  have h3 : ((parse_query query).query_type == "acquisition_target") = true := by
    rw [hq]; rfl
  have hget : get_persona "strategic_acquirer" = strategic_acquirer := rfl
  refine ⟨?_, ?_, ?_⟩ <;>
    simp only [search, h1, h2, h3, Bool.false_eq_true, if_false, if_true, hget] <;>
    try rfl

/-- Witness for C6 at the spec's scenario query, the trivial store, and a
conflicting caller persona. -/
theorem search_acquisition_forces_strategic_acquirer_witness :
    (parse_query "Best acquisition target for Google to compete with Palantir").query_type
      = "acquisition_target"
    ∧ (search emptyStore "Best acquisition target for Google to compete with Palantir"
        "value_investor").persona = "strategic_acquirer"
    ∧ (search emptyStore "Best acquisition target for Google to compete with Palantir"
        "value_investor").results
        = rank_candidates
            (emptyStore.acquisitionTargets
              (parse_query "Best acquisition target for Google to compete with Palantir").acquirer
              (parse_query "Best acquisition target for Google to compete with Palantir").target_company)
            strategic_acquirer
            (parse_query "Best acquisition target for Google to compete with Palantir").acquirer := by
  have h := search_acquisition_forces_strategic_acquirer emptyStore
    "Best acquisition target for Google to compete with Palantir" "value_investor" (by decide)
  exact ⟨by decide, h.1, h.2.2⟩

/-! ## C7: `parse_query` is total and the fallback ladder -/

/-- C7 (amended): `parse_query` always yields one of the four intents,
and when no intent pattern fires (and the keyword-gated attribute branch
does not apply) the fallback ladder runs in order: two or more distinct
entities → compare on the first two entities in the order produced by
longest-alias-first matching (not first appearance in the text); exactly
one entity → competitors_to; an attribute hint → attribute_search;
otherwise attribute_search with the default attribute. -/
theorem parse_query_total_and_fallback (query : String) :
    ((parse_query query).query_type = "competitors_to"
      ∨ (parse_query query).query_type = "compare"
      ∨ (parse_query query).query_type = "acquisition_target"
      ∨ (parse_query query).query_type = "attribute_search")
    ∧ (tryCompetitors (stripWs (toLowerL query.toList)) comp_patterns = none →
       tryPair (stripWs (toLowerL query.toList)) cmp_patterns = none →
       tryPair (stripWs (toLowerL query.toList)) acq_patterns = none →
       ((detect_attribute query.toList).isSome
         && ATTR_KEYWORDS.any (fun kw =>
              containsSub kw.toList (stripWs (toLowerL query.toList)))) = false →
       ((2 ≤ (extract_companies query.toList).length →
          parse_query query
            = { query_type := "compare", raw_query := query,
                target_company := (extract_companies query.toList).getD 0 "",
                compare_company := (extract_companies query.toList).getD 1 "",
                persona := detect_persona query.toList })
        ∧ ((extract_companies query.toList).length = 1 →
          parse_query query
            = { query_type := "competitors_to", raw_query := query,
                target_company := (extract_companies query.toList).getD 0 "",
                persona := detect_persona query.toList })
        ∧ (extract_companies query.toList = [] →
            (detect_attribute query.toList).isSome = true →
          parse_query query
            = { query_type := "attribute_search", raw_query := query,
                attribute_ := detect_attribute query.toList,
                persona := detect_persona query.toList })
        ∧ (extract_companies query.toList = [] → detect_attribute query.toList = none →
          parse_query query
            = { query_type := "attribute_search", raw_query := query,
                attribute_ := some "moat_durability",
                persona := detect_persona query.toList }))) := by
  constructor
  · simp only [parse_query]
    cases h1 : tryCompetitors (stripWs (toLowerL query.toList)) comp_patterns with
    | some t => simp [h1]
    | none =>
      cases h2 : tryPair (stripWs (toLowerL query.toList)) cmp_patterns with
      | some ab => simp [h1, h2]
      | none =>
        cases h3 : tryPair (stripWs (toLowerL query.toList)) acq_patterns with
        | some ab => simp [h1, h2, h3]
        | none =>
          simp only [h1, h2, h3]
          split_ifs <;> simp
  · intro h1 h2 h3 h4
    refine ⟨?_, ?_, ?_, ?_⟩
    · intro hlen
      simp only [parse_query, h1, h2, h3, h4, Bool.false_eq_true, if_false]
      rw [if_pos hlen]
    · intro hlen
      have hnot2 : ¬ (2 ≤ (extract_companies query.toList).length) := by omega
      have hone : ((extract_companies query.toList).length == 1) = true := by
        rw [hlen]
        rfl
      simp only [parse_query, h1, h2, h3, h4, Bool.false_eq_true, if_false]
      rw [if_neg hnot2, if_pos hone]
    · intro hemp hattr
      have hlen0 : (extract_companies query.toList).length = 0 := by rw [hemp]; rfl
      have hnot2 : ¬ (2 ≤ (extract_companies query.toList).length) := by omega
      have hnot1 : ((extract_companies query.toList).length == 1) = false := by
        rw [hlen0]; rfl
      simp only [parse_query, h1, h2, h3, h4, Bool.false_eq_true, if_false]
      rw [if_neg hnot2]
      simp only [hnot1, Bool.false_eq_true, if_false]
      rw [if_pos hattr]
    · intro hemp hattr
      have hlen0 : (extract_companies query.toList).length = 0 := by rw [hemp]; rfl
      have hnot2 : ¬ (2 ≤ (extract_companies query.toList).length) := by omega
      have hnot1 : ((extract_companies query.toList).length == 1) = false := by
        rw [hlen0]; rfl
      have hattrF : (detect_attribute query.toList).isSome = false := by
        rw [hattr]; rfl
      simp only [parse_query, h1, h2, h3, h4, Bool.false_eq_true, if_false]
      rw [if_neg hnot2]
      simp only [hnot1, hattrF, Bool.false_eq_true, if_false]

set_option maxRecDepth 200000 in
/-- Witness for C7 at the concrete fallback query "snowflake databricks"
(no intent pattern fires, two entities are found). -/
theorem parse_query_total_and_fallback_witness :
    tryCompetitors (stripWs (toLowerL "snowflake databricks".toList)) comp_patterns = none
    ∧ tryPair (stripWs (toLowerL "snowflake databricks".toList)) cmp_patterns = none
    ∧ tryPair (stripWs (toLowerL "snowflake databricks".toList)) acq_patterns = none
    ∧ ((detect_attribute "snowflake databricks".toList).isSome
        && ATTR_KEYWORDS.any (fun kw =>
             containsSub kw.toList (stripWs (toLowerL "snowflake databricks".toList)))) = false
    ∧ 2 ≤ (extract_companies "snowflake databricks".toList).length
    ∧ parse_query "snowflake databricks"
        = { query_type := "compare", raw_query := "snowflake databricks",
            target_company := (extract_companies "snowflake databricks".toList).getD 0 "",
            compare_company := (extract_companies "snowflake databricks".toList).getD 1 "",
            persona := detect_persona "snowflake databricks".toList
          } := by
  have h := (parse_query_total_and_fallback "snowflake databricks").2
    (by decide) (by decide) (by decide) (by decide)
  exact ⟨by decide, by decide, by decide, by decide, by decide, h.1 (by decide)⟩

set_option maxRecDepth 200000 in
/-- Counterexample to C7 as stated: on "snowflake databricks" no intent
pattern matches and two entities are found, but the code classifies with
target "databricks" and compare "snowflake" (longest alias matched
first), while the order of first appearance in the text is
["snowflake", "databricks"]. -/
theorem parse_query_fallback_order_counterexample :
    extract_companies_by_first_appearance "snowflake databricks".toList
      = ["snowflake", "databricks"]
    ∧ tryCompetitors (stripWs (toLowerL "snowflake databricks".toList)) comp_patterns = none
    ∧ tryPair (stripWs (toLowerL "snowflake databricks".toList)) cmp_patterns = none
    ∧ tryPair (stripWs (toLowerL "snowflake databricks".toList)) acq_patterns = none
    ∧ extract_companies "snowflake databricks".toList = ["databricks", "snowflake"]
    ∧ (parse_query "snowflake databricks").query_type = "compare"
    ∧ (parse_query "snowflake databricks").target_company = "databricks"
    ∧ (parse_query "snowflake databricks").compare_company = "snowflake"
    ∧ ("databricks" : String) ≠ "snowflake" := by
  refine ⟨by decide, by decide, by decide, by decide, by decide, by decide, by decide,
    by decide, by decide⟩

/-! ## C8: entity resolution -/

/-- The substring fold keeps a running maximum: the accumulator's length
never exceeds the result's, every matching table entry's length is
bounded by the result's, and the result is either the accumulator or a
matching entry. -/
theorem bestSubstrMatch_fold_spec (key : List Char) :
    ∀ (lookup : List (List Char × String)) (acc : Option String × Nat),
      (acc.2 ≤ (lookup.foldl (fun best p =>
          if best.2 < p.1.length && containsSub p.1 key then (some p.2, p.1.length) else best)
          acc).2)
      ∧ (∀ p ∈ lookup, containsSub p.1 key = true →
          p.1.length ≤ (lookup.foldl (fun best p =>
            if best.2 < p.1.length && containsSub p.1 key then (some p.2, p.1.length) else best)
            acc).2)
      ∧ ((lookup.foldl (fun best p =>
            if best.2 < p.1.length && containsSub p.1 key then (some p.2, p.1.length) else best)
            acc) = acc
         ∨ ∃ p ∈ lookup, (lookup.foldl (fun best p =>
              if best.2 < p.1.length && containsSub p.1 key then (some p.2, p.1.length) else best)
              acc) = (some p.2, p.1.length) ∧ containsSub p.1 key = true) := by
  intro lookup
  induction lookup with
  | nil =>
    intro acc
    exact ⟨le_refl _, fun p hp => absurd hp (List.not_mem_nil p), Or.inl rfl⟩
  | cons q rest ih =>
    intro acc
    simp only [List.foldl_cons]
    by_cases hq : (acc.2 < q.1.length && containsSub q.1 key) = true
    · rw [if_pos hq]
      obtain ⟨hmono, hbound, hres⟩ := ih (some q.2, q.1.length)
      rw [Bool.and_eq_true] at hq
      have hlt : acc.2 < q.1.length := by
        have := hq.1
        simpa using this
      refine ⟨le_trans (le_of_lt hlt) hmono, ?_, ?_⟩
      · intro p hp hpc
        rcases List.mem_cons.mp hp with h | h
        · subst h
          exact hmono
        · exact hbound p h hpc
      · rcases hres with h | ⟨p, hp, hfold, hpc⟩
        · exact Or.inr ⟨q, List.mem_cons_self q rest, h, hq.2⟩
        · exact Or.inr ⟨p, List.mem_cons_of_mem q hp, hfold, hpc⟩
    · rw [if_neg hq]
      obtain ⟨hmono, hbound, hres⟩ := ih acc
      refine ⟨hmono, ?_, ?_⟩
      · intro p hp hpc
        rcases List.mem_cons.mp hp with h | h
        · subst h
          have hnot : ¬ (acc.2 < p.1.length) := by
            intro hlt
            apply hq
            rw [Bool.and_eq_true]
            exact ⟨by simpa using hlt, hpc⟩
          omega
        · exact hbound p h hpc
      · rcases hres with h | ⟨p, hp, hfold, hpc⟩
        · exact Or.inl h
        · exact Or.inr ⟨p, List.mem_cons_of_mem q hp, hfold, hpc⟩

/-- C8: "Snowflake Inc.", "snowflake" and "SNOW" all resolve to the same
identifier; an exact (case/suffix-normalized) hit returns the table's
value; otherwise the substring phase returns a matching alias of maximal
length, so a longer matching alias always beats a shorter one. -/
theorem resolve_company_aliasing :
    (resolve_company "Snowflake Inc." = some "snowflake"
      ∧ resolve_company "snowflake" = some "snowflake"
      ∧ resolve_company "SNOW" = some "snowflake")
    ∧ (∀ (lookup : List (List Char × String)) (name : List Char) (cid : String),
        lookupGet lookup (prepKey name) = some cid →
        resolveWith lookup name = some cid)
    ∧ (∀ (lookup : List (List Char × String)) (name : List Char) (al : List Char) (cid : String),
        lookupGet lookup (prepKey name) = none →
        (al, cid) ∈ lookup →
        containsSub al (prepKey name) = true →
        al ≠ [] →
        ∃ al2 cid2, resolveWith lookup name = some cid2
          ∧ (al2, cid2) ∈ lookup
          ∧ containsSub al2 (prepKey name) = true
          ∧ al.length ≤ al2.length) := by
  refine ⟨⟨by decide, by decide, by decide⟩, ?_, ?_⟩
  · intro lookup name cid hget
    have hdef : resolveWith lookup name
        = match lookupGet lookup (prepKey name) with
          | some cid => some cid
          | none => (bestSubstrMatch lookup (prepKey name)).1 := rfl
    rw [hdef, hget]
  · intro lookup name al cid hget hmem hcont hne
    obtain ⟨hmono, hbound, hres⟩ := bestSubstrMatch_fold_spec (prepKey name) lookup (none, 0)
    have hlen : al.length ≤ (bestSubstrMatch lookup (prepKey name)).2 :=
      hbound (al, cid) hmem hcont
    have hpos : 0 < al.length := List.length_pos.mpr hne
    rcases hres with h | ⟨p, hp, hfold, hpc⟩
    · exfalso
      have : (bestSubstrMatch lookup (prepKey name)).2 = 0 := by
        unfold bestSubstrMatch
        rw [h]
      omega
    · refine ⟨p.1, p.2, ?_, hp, hpc, ?_⟩
      · have hdef : resolveWith lookup name
            = match lookupGet lookup (prepKey name) with
              | some cid2 => some cid2
              | none => (bestSubstrMatch lookup (prepKey name)).1 := rfl
        rw [hdef, hget]
        unfold bestSubstrMatch
        rw [hfold]
      · have : (bestSubstrMatch lookup (prepKey name)).2 = p.1.length := by
          unfold bestSubstrMatch
          rw [hfold]
        omega

/-- Witness for C8's conditional parts: an exact hit ("qdrant") and a
substring-phase resolution ("pinecone vector db", where the matching
alias "pinecone" must win over any shorter match). -/
theorem resolve_company_aliasing_witness :
    lookupGet COMPANY_LOOKUP (prepKey "qdrant".toList) = some "qdrant"
    ∧ resolveWith COMPANY_LOOKUP "qdrant".toList = some "qdrant"
    ∧ lookupGet COMPANY_LOOKUP (prepKey "pinecone vector db".toList) = none
    ∧ ("pinecone".toList, "pinecone") ∈ COMPANY_LOOKUP
    ∧ containsSub "pinecone".toList (prepKey "pinecone vector db".toList) = true
    ∧ ∃ al2 cid2, resolveWith COMPANY_LOOKUP "pinecone vector db".toList = some cid2
        ∧ (al2, cid2) ∈ COMPANY_LOOKUP
        ∧ containsSub al2 (prepKey "pinecone vector db".toList) = true
        ∧ ("pinecone".toList).length ≤ al2.length := by
  refine ⟨by decide, ?_, by decide, by decide, by decide, ?_⟩
  · exact (resolve_company_aliasing).2.1 COMPANY_LOOKUP "qdrant".toList "qdrant" (by decide)
  · exact (resolve_company_aliasing).2.2 COMPANY_LOOKUP "pinecone vector db".toList
      "pinecone".toList "pinecone" (by decide) (by decide) (by decide) (by decide)

end InvestorLens
